import Mathlib

/-!
Shallow embedding of `src/delete-default-vpc/delete-default.py`.

The script is a linear sequence of describe/delete calls against the AWS EC2
API. We model an execution as the list of API calls the script issues
(`ApiCall`), in order, together with exception flags. The provider is an
oracle (`Ec2Provider`) giving the response of every describe call and saying
which mutation calls raise.

Two facts of the source that the model makes explicit:

* Line 45 creates the `ec2` client once, at import time. The region of a
  boto3 client is resolved when the client is created; the later assignment
  `os.environ['AWS_DEFAULT_REGION'] = region` (line 136) does not change the
  region of the already-created client, so every call in the whole run is
  issued against the client's creation-time region `clientRegion`, whatever
  region the loop is currently handling.

* Line 177 calls `delete_resources`, a name defined nowhere in the program,
  so in Python that call raises `NameError` before issuing any provider
  call; the `except` on line 178 catches and logs it.
-/

namespace DeleteDefaultVpc

/-- A subnet as returned by `describe_subnets` (only the field the script
reads). -/
structure Subnet where
  subnetId : String
  deriving DecidableEq, Repr

/-- A route-table association (fields `Main` and `RouteTableAssociationId`
read on lines 88-90). -/
structure RouteTableAssoc where
  main : Bool
  routeTableAssociationId : String
  deriving DecidableEq, Repr

/-- A route table as returned by `describe_route_tables` (lines 86-92). -/
structure RouteTable where
  routeTableId : String
  associations : List RouteTableAssoc
  deriving DecidableEq, Repr

/-- A network ACL as returned by `describe_network_acls` (lines 99-102). -/
structure NetworkAcl where
  networkAclId : String
  isDefault : Bool
  deriving DecidableEq, Repr

/-- A security group as returned by `describe_security_groups`
(lines 109-112). -/
structure SecurityGroup where
  groupId : String
  groupName : String
  deriving DecidableEq, Repr

/-- One EC2 API call issued by the script.  The first `String` argument of
every constructor is the region the call is actually issued against (the
region of the `ec2` client object the method is invoked on). -/
inductive ApiCall where
  | describeRegions : ApiCall
  | describeVpcs (region : String) : ApiCall
  | describeInternetGateways (region vpc : String) : ApiCall
  | describeSubnets (region vpc : String) : ApiCall
  | describeRouteTables (region vpc : String) : ApiCall
  | describeNetworkAcls (region vpc : String) : ApiCall
  | describeSecurityGroups (region vpc : String) : ApiCall
  | detachInternetGateway (region igwId vpc : String) : ApiCall
  | deleteInternetGateway (region igwId : String) : ApiCall
  | deleteSubnet (region subnetId : String) : ApiCall
  | disassociateRouteTable (region assocId : String) : ApiCall
  | deleteRouteTable (region rtId : String) : ApiCall
  | deleteNetworkAcl (region aclId : String) : ApiCall
  | deleteSecurityGroup (region groupId : String) : ApiCall
  | deleteVpc (region vpc : String) : ApiCall
  deriving DecidableEq, Repr

/-- Whether a call mutates provider state (a detach/delete/disassociate
call, as opposed to a describe). -/
def isMutation : ApiCall → Bool
  | ApiCall.detachInternetGateway _ _ _ => true
  | ApiCall.deleteInternetGateway _ _ => true
  | ApiCall.deleteSubnet _ _ => true
  | ApiCall.disassociateRouteTable _ _ => true
  | ApiCall.deleteRouteTable _ _ => true
  | ApiCall.deleteNetworkAcl _ _ => true
  | ApiCall.deleteSecurityGroup _ _ => true
  | ApiCall.deleteVpc _ _ => true
  | _ => false

/-- The region a call is issued against (`none` for `describe_regions`,
whose result is region-independent). -/
def callRegion : ApiCall → Option String
  | ApiCall.describeRegions => none
  | ApiCall.describeVpcs r => some r
  | ApiCall.describeInternetGateways r _ => some r
  | ApiCall.describeSubnets r _ => some r
  | ApiCall.describeRouteTables r _ => some r
  | ApiCall.describeNetworkAcls r _ => some r
  | ApiCall.describeSecurityGroups r _ => some r
  | ApiCall.detachInternetGateway r _ _ => some r
  | ApiCall.deleteInternetGateway r _ => some r
  | ApiCall.deleteSubnet r _ => some r
  | ApiCall.disassociateRouteTable r _ => some r
  | ApiCall.deleteRouteTable r _ => some r
  | ApiCall.deleteNetworkAcl r _ => some r
  | ApiCall.deleteSecurityGroup r _ => some r
  | ApiCall.deleteVpc r _ => some r

/-- The position of a call in the fixed deletion order of
`delete_dependent_resources` (lines 64-122): internet gateways, then
subnets, then route tables, then network ACLs, then security groups, then
the VPC itself. -/
def callPhase : ApiCall → Nat
  | ApiCall.describeInternetGateways _ _ => 0
  | ApiCall.detachInternetGateway _ _ _ => 0
  | ApiCall.deleteInternetGateway _ _ => 0
  | ApiCall.describeSubnets _ _ => 1
  | ApiCall.deleteSubnet _ _ => 1
  | ApiCall.describeRouteTables _ _ => 2
  | ApiCall.disassociateRouteTable _ _ => 2
  | ApiCall.deleteRouteTable _ _ => 2
  | ApiCall.describeNetworkAcls _ _ => 3
  | ApiCall.deleteNetworkAcl _ _ => 3
  | ApiCall.describeSecurityGroups _ _ => 4
  | ApiCall.deleteSecurityGroup _ _ => 4
  | ApiCall.deleteVpc _ _ => 5
  | _ => 0

/-- The provider oracle.  Describe responses are keyed by the region the
call is issued against (and the VPC id in the filter); `Except.error ()`
means the call raises.  `describe_internet_gateways` and `describe_subnets`
are each called at two distinct places (the listing in the main loop and
the one inside `delete_dependent_resources`), so the two call sites get
independent responses.  `mutationFails c` says whether the mutation call
`c` raises when issued. -/
structure Ec2Provider where
  regionsResp : Except Unit (List String)
  vpcsResp : String → Except Unit (List String)
  igwsListResp : String → String → Except Unit (List String)
  igwsDelResp : String → String → Except Unit (List String)
  subnetsListResp : String → String → Except Unit (List Subnet)
  subnetsDelResp : String → String → Except Unit (List Subnet)
  routeTablesResp : String → String → Except Unit (List RouteTable)
  networkAclsResp : String → String → Except Unit (List NetworkAcl)
  securityGroupsResp : String → String → Except Unit (List SecurityGroup)
  mutationFails : ApiCall → Bool

/-- Issue a list of mutation calls in order, stopping right after the first
one that raises.  Returns the calls actually issued (the raising one
included) and whether one raised. -/
def runCalls (p : Ec2Provider) : List ApiCall → List ApiCall × Bool
  | [] => ([], false)
  | c :: rest =>
      if p.mutationFails c then ([c], true)
      else (c :: (runCalls p rest).1, (runCalls p rest).2)

/-- One `try` block of `delete_dependent_resources`: either a describe call
followed by the mutation calls computed from its response, or a bare list
of mutation calls (the final `delete_vpc`). -/
inductive Step where
  | descBlock (desc : ApiCall) (body : Except Unit (List ApiCall)) : Step
  | calls (cs : List ApiCall) : Step

/-- The calls a step would issue if nothing raised. -/
def stepFull : Step → List ApiCall
  | Step.descBlock d (Except.error _) => [d]
  | Step.descBlock d (Except.ok cs) => d :: cs
  | Step.calls cs => cs

/-- Run one step: a failing describe raises at once; otherwise the step's
mutation calls run until one raises. -/
def runStep (p : Ec2Provider) : Step → List ApiCall × Bool
  | Step.descBlock d (Except.error _) => ([d], true)
  | Step.descBlock d (Except.ok cs) => (d :: (runCalls p cs).1, (runCalls p cs).2)
  | Step.calls cs => runCalls p cs

/-- Run steps in order; each step's `except ...: raise` re-raises, so a
raising step stops the whole sequence. -/
def runSteps (p : Ec2Provider) : List Step → List ApiCall × Bool
  | [] => ([], false)
  | s :: rest =>
      if (runStep p s).2 then runStep p s
      else ((runStep p s).1 ++ (runSteps p rest).1, (runSteps p rest).2)

/-- Lines 68-70: detach then delete each internet gateway attached to the
VPC. -/
def igwCalls (region vpc : String) (igws : List String) : List ApiCall :=
  igws.flatMap fun i =>
    [ApiCall.detachInternetGateway region i vpc, ApiCall.deleteInternetGateway region i]

/-- Lines 78-79: delete each subnet of the VPC. -/
def subnetCalls (region : String) (subnets : List Subnet) : List ApiCall :=
  subnets.map fun s => ApiCall.deleteSubnet region s.subnetId

/-- Lines 87-92: disassociate the non-main associations of a route table,
then delete the table when none of its associations is the main one. -/
def routeTableCalls (region : String) (rt : RouteTable) : List ApiCall :=
  ((rt.associations.filter fun a => !a.main).map fun a =>
      ApiCall.disassociateRouteTable region a.routeTableAssociationId) ++
    (if rt.associations.any fun a => a.main then []
     else [ApiCall.deleteRouteTable region rt.routeTableId])

/-- Lines 100-102: delete each non-default network ACL of the VPC. -/
def aclCalls (region : String) (acls : List NetworkAcl) : List ApiCall :=
  (acls.filter fun a => !a.isDefault).map fun a =>
    ApiCall.deleteNetworkAcl region a.networkAclId

/-- Lines 110-112: delete each security group of the VPC whose name is not
`default`. -/
def sgCalls (region : String) (sgs : List SecurityGroup) : List ApiCall :=
  (sgs.filter fun s => s.groupName ≠ "default").map fun s =>
    ApiCall.deleteSecurityGroup region s.groupId

/-- The six `try` blocks of `delete_dependent_resources` (lines 64-122), in
source order. -/
def ddrSteps (p : Ec2Provider) (region vpc : String) : List Step :=
  [Step.descBlock (ApiCall.describeInternetGateways region vpc)
      ((p.igwsDelResp region vpc).map (igwCalls region vpc)),
   Step.descBlock (ApiCall.describeSubnets region vpc)
      ((p.subnetsDelResp region vpc).map (subnetCalls region)),
   Step.descBlock (ApiCall.describeRouteTables region vpc)
      ((p.routeTablesResp region vpc).map fun rts => rts.flatMap (routeTableCalls region)),
   Step.descBlock (ApiCall.describeNetworkAcls region vpc)
      ((p.networkAclsResp region vpc).map (aclCalls region)),
   Step.descBlock (ApiCall.describeSecurityGroups region vpc)
      ((p.securityGroupsResp region vpc).map (sgCalls region)),
   Step.calls [ApiCall.deleteVpc region vpc]]

/-- `delete_dependent_resources(vpc)` (lines 64-122): the calls issued, in
order, and whether the function raised.  `region` is the region of the
global `ec2` client the calls go through. -/
def delete_dependent_resources (p : Ec2Provider) (region vpc : String) :
    List ApiCall × Bool :=
  runSteps p (ddrSteps p region vpc)

/-- The calls `delete_dependent_resources` issues when nothing raises. -/
def fullDeleteTrace (p : Ec2Provider) (region vpc : String) : List ApiCall :=
  ((ddrSteps p region vpc).map stepFull).flatten

/-- Describe calls are not mutations; true of every step the script runs. -/
def stepDescOk : Step → Prop
  | Step.descBlock d _ => isMutation d = false
  | Step.calls _ => True

/-- Whether a describe response raises. -/
def respErrors {α : Type} : Except Unit α → Bool
  | Except.error _ => true
  | Except.ok _ => false

/-- Whether a describe call issued inside `delete_dependent_resources`
raises, read off the provider's response for that call site (the gateway
and subnet describes here are the ones on lines 67 and 77, not the listing
ones of the main loop).  `false` for every non-describe call. -/
def descFails (p : Ec2Provider) : ApiCall → Bool
  | ApiCall.describeInternetGateways r v => respErrors (p.igwsDelResp r v)
  | ApiCall.describeSubnets r v => respErrors (p.subnetsDelResp r v)
  | ApiCall.describeRouteTables r v => respErrors (p.routeTablesResp r v)
  | ApiCall.describeNetworkAcls r v => respErrors (p.networkAclsResp r v)
  | ApiCall.describeSecurityGroups r v => respErrors (p.securityGroupsResp r v)
  | _ => false

/-- For tracking a failing describe call `c` through the steps: `c` may
appear in a step only as the describe of a block whose body raises. -/
def descStepOk (c : ApiCall) : Step → Prop
  | Step.descBlock _ (Except.error _) => True
  | Step.descBlock d (Except.ok cs) => d ≠ c ∧ c ∉ cs
  | Step.calls cs => c ∉ cs

/-- The `k`-th section of the full delete trace (the calls of the `k`-th
`try` block of `delete_dependent_resources`, describe included). -/
def ddrSection (p : Ec2Provider) (region vpc : String) : Nat → List ApiCall
  | 0 => stepFull (Step.descBlock (ApiCall.describeInternetGateways region vpc)
      ((p.igwsDelResp region vpc).map (igwCalls region vpc)))
  | 1 => stepFull (Step.descBlock (ApiCall.describeSubnets region vpc)
      ((p.subnetsDelResp region vpc).map (subnetCalls region)))
  | 2 => stepFull (Step.descBlock (ApiCall.describeRouteTables region vpc)
      ((p.routeTablesResp region vpc).map fun rts => rts.flatMap (routeTableCalls region)))
  | 3 => stepFull (Step.descBlock (ApiCall.describeNetworkAcls region vpc)
      ((p.networkAclsResp region vpc).map (aclCalls region)))
  | 4 => stepFull (Step.descBlock (ApiCall.describeSecurityGroups region vpc)
      ((p.securityGroupsResp region vpc).map (sgCalls region)))
  | _ => [ApiCall.deleteVpc region vpc]

/-- Line 177 calls `delete_resources(vpc, igw, subnets)`.  The name
`delete_resources` is defined nowhere in the program, so the call raises
`NameError` before issuing any provider call: no calls, raised. -/
def delete_resources (vpc : String) (igw : Option String) (subnets : List Subnet) :
    List ApiCall × Bool :=
  ([], true)

/-- Lines 174-179: run `delete_dependent_resources`, then (only when it did
not raise) `delete_resources`; the surrounding `except` catches either
exception.  Returns the calls issued and whether the `except` branch on
line 178 ran (the error was logged). -/
def deleteDispatch (p : Ec2Provider) (region vpc : String) (igw : Option String)
    (subnets : List Subnet) : List ApiCall × Bool :=
  if (delete_dependent_resources p region vpc).2 then
    ((delete_dependent_resources p region vpc).1, true)
  else
    ((delete_dependent_resources p region vpc).1 ++ (delete_resources vpc igw subnets).1,
     (delete_resources vpc igw subnets).2)

/-- The indentation constant of line 28. -/
def INDENT : String := "    "

/-- Lines 166-172: the listing printed before the confirmation prompt. -/
def resourceListing (igw : Option String) (subnets : List Subnet) (vpc : String) :
    List String :=
  (match igw with
   | some i => [INDENT ++ "Internet gateway " ++ i]
   | none => []) ++
    (subnets.map fun s => INDENT ++ "Subnet " ++ s.subnetId) ++
    [INDENT ++ "VPC " ++ vpc]

/-- Python's `str.lower()` (line 57), modeled per character. -/
def strLower (s : String) : String :=
  String.mk (s.data.map Char.toLower)

/-- The `while True` prompt loop of lines 55-62, reading from the (finite)
standard-input stream: the first `y`/`n` answer (after lowercasing)
decides; other lines re-prompt.  `none` means the stream ran out, where the
real program stops making progress (`input()` raises `EOFError` outside any
`try`, killing the process).  Also returns the unconsumed stream. -/
def askLoop : List String → Option Bool × List String
  | [] => (none, [])
  | s :: rest =>
      if strLower s = "y" then (some true, rest)
      else if strLower s = "n" then (some false, rest)
      else askLoop rest

/-- Result of `confirm_delete`: the decision (`none` when the input stream
ran out), the unconsumed input stream, and whether the prompt was reached
at all. -/
structure ConfirmResult where
  decision : Option Bool
  rest : List String
  prompted : Bool
  deriving DecidableEq, Repr

/-- `confirm_delete(resources, no_confirm)` (lines 47-62): with the
`--no-confirm` flag it returns `True` at once; otherwise it prints the
resources and prompts until a `y`/`n` answer arrives. -/
def confirm_delete (resources : List String) (no_confirm : Bool)
    (inputs : List String) : ConfirmResult :=
  if no_confirm then ⟨some true, inputs, false⟩
  else ⟨(askLoop inputs).1, (askLoop inputs).2, true⟩

/-- What handling one region produces: the calls issued while handling it,
the unconsumed input stream, and whether the run got stuck at the prompt
(input stream exhausted). -/
structure RegionOutcome where
  trace : List ApiCall
  rest : List String
  blocked : Bool

/-- The body of the `for region in REGIONS` loop (lines 135-179).
`clientRegion` is the region of the global `ec2` client created on line 45;
`region` is the loop variable, which only reaches the log line and the
(ineffective) `os.environ` assignment on line 136 — every API call below
goes through the already-created client, hence against `clientRegion`. -/
def processRegion (p : Ec2Provider) (clientRegion : String) (noConfirm : Bool)
    (inputs : List String) (region : String) : RegionOutcome :=
  match p.vpcsResp clientRegion with
  | Except.error _ => ⟨[ApiCall.describeVpcs clientRegion], inputs, false⟩
  | Except.ok [] => ⟨[ApiCall.describeVpcs clientRegion], inputs, false⟩
  | Except.ok (vpc :: _) =>
      match p.igwsListResp clientRegion vpc with
      | Except.error _ =>
          ⟨[ApiCall.describeVpcs clientRegion,
            ApiCall.describeInternetGateways clientRegion vpc], inputs, false⟩
      | Except.ok igwIds =>
          match p.subnetsListResp clientRegion vpc with
          | Except.error _ =>
              ⟨[ApiCall.describeVpcs clientRegion,
                ApiCall.describeInternetGateways clientRegion vpc,
                ApiCall.describeSubnets clientRegion vpc], inputs, false⟩
          | Except.ok subnets =>
              match confirm_delete (resourceListing igwIds.head? subnets vpc)
                  noConfirm inputs with
              | ⟨none, rest, _⟩ =>
                  ⟨[ApiCall.describeVpcs clientRegion,
                    ApiCall.describeInternetGateways clientRegion vpc,
                    ApiCall.describeSubnets clientRegion vpc], rest, true⟩
              | ⟨some false, rest, _⟩ =>
                  ⟨[ApiCall.describeVpcs clientRegion,
                    ApiCall.describeInternetGateways clientRegion vpc,
                    ApiCall.describeSubnets clientRegion vpc], rest, false⟩
              | ⟨some true, rest, _⟩ =>
                  ⟨[ApiCall.describeVpcs clientRegion,
                    ApiCall.describeInternetGateways clientRegion vpc,
                    ApiCall.describeSubnets clientRegion vpc] ++
                      (deleteDispatch p clientRegion vpc igwIds.head? subnets).1,
                    rest, false⟩

/-- The whole region loop: each region's outcome in order, pairing the loop
variable with the calls issued while handling it.  A run stuck at a prompt
(exhausted input) processes no further region. -/
def runRegions (p : Ec2Provider) (clientRegion : String) (noConfirm : Bool) :
    List String → List String → List (String × List ApiCall)
  | _, [] => []
  | inputs, r :: rest =>
      if (processRegion p clientRegion noConfirm inputs r).blocked then
        [(r, (processRegion p clientRegion noConfirm inputs r).trace)]
      else
        (r, (processRegion p clientRegion noConfirm inputs r).trace) ::
          runRegions p clientRegion noConfirm
            ((processRegion p clientRegion noConfirm inputs r).rest) rest

/-- Lines 130-133: the region list is the one from `describe_regions`,
replaced by the `--regions` argument when that is present and non-empty
(with `nargs` set to one-or-more, `argparse` never produces an empty
list). -/
def computeRegions (described : List String) (argRegions : Option (List String)) :
    List String :=
  match argRegions with
  | none => described
  | some rs => if rs.isEmpty then described else rs

/-- The `__main__` block (lines 124-179).  `describe_regions` (line 130) is
called unconditionally and outside any `try`, so its failure kills the
program (`Except.error`). -/
def runMain (p : Ec2Provider) (argRegions : Option (List String)) (noConfirm : Bool)
    (inputs : List String) (clientRegion : String) :
    Except Unit (List (String × List ApiCall)) :=
  match p.regionsResp with
  | Except.error _ => Except.error ()
  | Except.ok described =>
      Except.ok (runRegions p clientRegion noConfirm inputs
        (computeRegions described argRegions))

/-- A provider with a default VPC in every region, one internet gateway,
one subnet, a main and a non-main route table, a default and a non-default
network ACL, and the default plus one more security group; nothing
raises. -/
def sampleProvider : Ec2Provider where
  regionsResp := Except.ok ["us-east-1", "eu-west-1"]
  vpcsResp := fun _ => Except.ok ["vpc-1"]
  igwsListResp := fun _ _ => Except.ok ["igw-1"]
  igwsDelResp := fun _ _ => Except.ok ["igw-1"]
  subnetsListResp := fun _ _ => Except.ok [⟨"subnet-1"⟩]
  subnetsDelResp := fun _ _ => Except.ok [⟨"subnet-1"⟩]
  routeTablesResp := fun _ _ =>
    Except.ok [⟨"rtb-main", [⟨true, "rtbassoc-m"⟩]⟩, ⟨"rtb-2", [⟨false, "rtbassoc-2"⟩]⟩]
  networkAclsResp := fun _ _ => Except.ok [⟨"acl-def", true⟩, ⟨"acl-2", false⟩]
  securityGroupsResp := fun _ _ => Except.ok [⟨"sg-def", "default"⟩, ⟨"sg-web", "web"⟩]
  mutationFails := fun _ => false

/-- A provider whose default-VPC query returns an empty list everywhere. -/
def emptyProvider : Ec2Provider where
  regionsResp := Except.ok ["us-east-1"]
  vpcsResp := fun _ => Except.ok []
  igwsListResp := fun _ _ => Except.ok []
  igwsDelResp := fun _ _ => Except.ok []
  subnetsListResp := fun _ _ => Except.ok []
  subnetsDelResp := fun _ _ => Except.ok []
  routeTablesResp := fun _ _ => Except.ok []
  networkAclsResp := fun _ _ => Except.ok []
  securityGroupsResp := fun _ _ => Except.ok []
  mutationFails := fun _ => false

/-- Like `sampleProvider`, but the `delete_subnet` call for `subnet-1`
raises. -/
def failProvider : Ec2Provider :=
  { sampleProvider with
    mutationFails := fun c => c = ApiCall.deleteSubnet "us-east-1" "subnet-1" }

/-- Like `sampleProvider`, but the `describe_route_tables` call inside
`delete_dependent_resources` raises. -/
def descFailProvider : Ec2Provider :=
  { sampleProvider with routeTablesResp := fun _ _ => Except.error () }

/-! ### Basic execution lemmas -/

/-- The calls `runCalls` issues form a prefix of the intended call list. -/
theorem runCalls_app (p : Ec2Provider) (cs : List ApiCall) :
    ∃ t, (runCalls p cs).1 ++ t = cs := by
  induction cs with
  | nil => exact ⟨[], rfl⟩
  | cons c rest ih =>
      cases h : p.mutationFails c with
      | true => exact ⟨rest, by simp [runCalls, h]⟩
      | false =>
          obtain ⟨t, ht⟩ := ih
          exact ⟨t, by simp [runCalls, h, ht]⟩

/-- Every call `runCalls` issues comes from the intended call list. -/
theorem runCalls_subset (p : Ec2Provider) (cs : List ApiCall) (c : ApiCall)
    (h : c ∈ (runCalls p cs).1) : c ∈ cs := by
  obtain ⟨t, ht⟩ := runCalls_app p cs
  rw [← ht]
  exact List.mem_append_left t h

/-- When nothing raised, `runCalls` issued every intended call. -/
theorem runCalls_complete (p : Ec2Provider) (cs : List ApiCall)
    (h : (runCalls p cs).2 = false) : (runCalls p cs).1 = cs := by
  induction cs with
  | nil => rfl
  | cons c rest ih =>
      cases hc : p.mutationFails c with
      | true => simp [runCalls, hc] at h
      | false =>
          simp only [runCalls, hc, Bool.false_eq_true, if_false] at h ⊢
          simp [ih h]

/-- With a never-raising provider, `runCalls` issues exactly the call list. -/
theorem runCalls_nofail_fst (p : Ec2Provider) (hnf : ∀ c, p.mutationFails c = false)
    (cs : List ApiCall) : (runCalls p cs).1 = cs := by
  induction cs with
  | nil => rfl
  | cons c rest ih => simp [runCalls, hnf c, ih]

/-- With a never-raising provider, `runCalls` does not raise. -/
theorem runCalls_nofail_snd (p : Ec2Provider) (hnf : ∀ c, p.mutationFails c = false)
    (cs : List ApiCall) : (runCalls p cs).2 = false := by
  induction cs with
  | nil => rfl
  | cons c rest ih => simp [runCalls, hnf c, ih]

/-- When nothing raised, none of the issued calls is a failing one. -/
theorem runCalls_mem_nofail (p : Ec2Provider) (cs : List ApiCall)
    (h : (runCalls p cs).2 = false) :
    ∀ c ∈ (runCalls p cs).1, p.mutationFails c = false := by
  induction cs with
  | nil => intro c hc; simp [runCalls] at hc
  | cons a rest ih =>
      cases ha : p.mutationFails a with
      | true => simp [runCalls, ha] at h
      | false =>
          simp only [runCalls, ha, Bool.false_eq_true, if_false] at h ⊢
          intro c hc
          rcases List.mem_cons.mp hc with rfl | hc
          · exact ha
          · exact ih h c hc

/-- A failing call that got issued is the last call issued, is issued once,
and made the run raise. -/
theorem runCalls_fail_last (p : Ec2Provider) (c : ApiCall)
    (hfail : p.mutationFails c = true) (cs : List ApiCall)
    (hmem : c ∈ (runCalls p cs).1) :
    (runCalls p cs).1.getLast? = some c ∧ (runCalls p cs).1.count c = 1 ∧
      (runCalls p cs).2 = true := by
  induction cs with
  | nil => simp [runCalls] at hmem
  | cons a rest ih =>
      cases ha : p.mutationFails a with
      | true =>
          simp only [runCalls, ha, if_true] at hmem ⊢
          simp only [List.mem_singleton] at hmem
          subst hmem
          simp
      | false =>
          simp only [runCalls, ha, Bool.false_eq_true, if_false] at hmem ⊢
          have hne : c ≠ a := by
            intro e
            rw [e, ha] at hfail
            cases hfail
          rcases List.mem_cons.mp hmem with rfl | hm
          · exact absurd rfl hne
          · obtain ⟨hl, hcnt, hsnd⟩ := ih hm
            refine ⟨?_, ?_, hsnd⟩
            · rcases htr : (runCalls p rest).1 with _ | ⟨b, l⟩
              · rw [htr] at hm; simp at hm
              · rw [htr] at hl
                rw [List.getLast?_cons_cons]
                exact hl
            · rw [List.count_cons_of_ne hne, hcnt]

/-- The calls `runStep` issues form a prefix of the step's full call list. -/
theorem runStep_app (p : Ec2Provider) (s : Step) :
    ∃ t, (runStep p s).1 ++ t = stepFull s := by
  cases s with
  | descBlock d body =>
      cases body with
      | error e => exact ⟨[], rfl⟩
      | ok cs =>
          obtain ⟨t, ht⟩ := runCalls_app p cs
          exact ⟨t, by simp [runStep, stepFull, ht]⟩
  | calls cs => exact runCalls_app p cs

/-- When a step did not raise, it issued its full call list. -/
theorem runStep_complete (p : Ec2Provider) (s : Step) (h : (runStep p s).2 = false) :
    (runStep p s).1 = stepFull s := by
  cases s with
  | descBlock d body =>
      cases body with
      | error e => simp [runStep] at h
      | ok cs =>
          simp only [runStep] at h ⊢
          simp [stepFull, runCalls_complete p cs h]
  | calls cs => exact runCalls_complete p cs h

/-- When a step did not raise, no mutation it issued is a failing one. -/
theorem runStep_mem_nofail (p : Ec2Provider) (s : Step) (hdok : stepDescOk s)
    (h : (runStep p s).2 = false) :
    ∀ c ∈ (runStep p s).1, isMutation c = true → p.mutationFails c = false := by
  cases s with
  | descBlock d body =>
      cases body with
      | error e => simp [runStep] at h
      | ok cs =>
          simp only [runStep] at h ⊢
          simp only [stepDescOk] at hdok
          intro c hc hm
          rcases List.mem_cons.mp hc with rfl | hc
          · rw [hdok] at hm; cases hm
          · exact runCalls_mem_nofail p cs h c hc
  | calls cs => intro c hc _; exact runCalls_mem_nofail p cs h c hc

/-- A failing mutation that a step issued is its last call, issued once. -/
theorem runStep_fail_last (p : Ec2Provider) (c : ApiCall) (s : Step)
    (hdok : stepDescOk s) (hmut : isMutation c = true)
    (hfail : p.mutationFails c = true) (hmem : c ∈ (runStep p s).1) :
    (runStep p s).1.getLast? = some c ∧ (runStep p s).1.count c = 1 := by
  cases s with
  | descBlock d body =>
      cases body with
      | error e =>
          simp only [runStep, List.mem_singleton] at hmem
          subst hmem
          simp only [stepDescOk] at hdok
          rw [hdok] at hmut
          cases hmut
      | ok cs =>
          simp only [runStep] at hmem ⊢
          simp only [stepDescOk] at hdok
          have hne : c ≠ d := by
            intro e
            rw [e, hdok] at hmut
            cases hmut
          rcases List.mem_cons.mp hmem with rfl | hm
          · exact absurd rfl hne
          · obtain ⟨hl, hcnt, _⟩ := runCalls_fail_last p c hfail cs hm
            constructor
            · rcases htr : (runCalls p cs).1 with _ | ⟨b, l⟩
              · rw [htr] at hm; simp at hm
              · rw [htr] at hl
                rw [List.getLast?_cons_cons]
                exact hl
            · rw [List.count_cons_of_ne hne, hcnt]
  | calls cs =>
      obtain ⟨hl, hcnt, _⟩ := runCalls_fail_last p c hfail cs hmem
      exact ⟨hl, hcnt⟩

/-- The calls `runSteps` issues form a prefix of the steps' full call
lists, concatenated. -/
theorem runSteps_app (p : Ec2Provider) (ss : List Step) :
    ∃ t, (runSteps p ss).1 ++ t = (ss.map stepFull).flatten := by
  induction ss with
  | nil => exact ⟨[], rfl⟩
  | cons s rest ih =>
      cases hs : (runStep p s).2 with
      | true =>
          obtain ⟨t0, ht0⟩ := runStep_app p s
          refine ⟨t0 ++ (rest.map stepFull).flatten, ?_⟩
          simp only [runSteps, hs, if_true, List.map_cons, List.flatten_cons]
          rw [← List.append_assoc, ht0]
      | false =>
          obtain ⟨t, ht⟩ := ih
          refine ⟨t, ?_⟩
          simp only [runSteps, hs, Bool.false_eq_true, if_false, List.map_cons,
            List.flatten_cons]
          rw [runStep_complete p s hs, List.append_assoc, ht]

/-- When no step raised, `runSteps` issued every intended call. -/
theorem runSteps_complete (p : Ec2Provider) (ss : List Step)
    (h : (runSteps p ss).2 = false) :
    (runSteps p ss).1 = (ss.map stepFull).flatten := by
  induction ss with
  | nil => rfl
  | cons s rest ih =>
      cases hs : (runStep p s).2 with
      | true => simp [runSteps, hs] at h
      | false =>
          simp only [runSteps, hs, Bool.false_eq_true, if_false] at h ⊢
          simp [runStep_complete p s hs, ih h]

/-- Every call `runSteps` issues belongs to the concatenated full call
lists. -/
theorem mem_runSteps_mem_flatten (p : Ec2Provider) (ss : List Step) (c : ApiCall)
    (h : c ∈ (runSteps p ss).1) : c ∈ (ss.map stepFull).flatten := by
  obtain ⟨t, ht⟩ := runSteps_app p ss
  rw [← ht]
  exact List.mem_append_left t h

/-- A failing mutation issued during `runSteps` is the very last call
issued, is issued once, and the whole run raised. -/
theorem runSteps_fail_last (p : Ec2Provider) (c : ApiCall)
    (hmut : isMutation c = true) (hfail : p.mutationFails c = true)
    (ss : List Step) (hdok : ∀ s ∈ ss, stepDescOk s)
    (hmem : c ∈ (runSteps p ss).1) :
    (runSteps p ss).1.getLast? = some c ∧ (runSteps p ss).1.count c = 1 ∧
      (runSteps p ss).2 = true := by
  induction ss with
  | nil => simp [runSteps] at hmem
  | cons s rest ih =>
      cases hs : (runStep p s).2 with
      | true =>
          simp only [runSteps, hs, if_true] at hmem ⊢
          obtain ⟨hl, hcnt⟩ :=
            runStep_fail_last p c s (hdok s (List.mem_cons_self s rest)) hmut hfail hmem
          exact ⟨hl, hcnt, trivial⟩
      | false =>
          simp only [runSteps, hs, Bool.false_eq_true, if_false] at hmem ⊢
          have hnotin : c ∉ (runStep p s).1 := by
            intro hc
            have := runStep_mem_nofail p s (hdok s (List.mem_cons_self s rest)) hs c hc hmut
            rw [hfail] at this
            cases this
          rcases List.mem_append.mp hmem with hc | hc
          · exact absurd hc hnotin
          · obtain ⟨hl, hcnt, hsnd⟩ :=
              ih (fun x hx => hdok x (List.mem_cons_of_mem s hx)) hc
            refine ⟨?_, ?_, hsnd⟩
            · rw [List.getLast?_append_of_ne_nil _
                (by intro h0; rw [h0] at hc; simp at hc), hl]
            · rw [List.count_append, List.count_eq_zero.mpr hnotin, hcnt]

/-- A block whose describe differs from `c` and whose generated calls are
all mutations is safe for tracking the non-mutation call `c`. -/
theorem descStepOk_block {α : Type} (c d : ApiCall) (resp : Except Unit α)
    (f : α → List ApiCall) (hne : d ≠ c) (hnm : isMutation c = false)
    (hf : ∀ x, ∀ e ∈ f x, isMutation e = true) :
    descStepOk c (Step.descBlock d (resp.map f)) := by
  cases resp with
  | error e => trivial
  | ok x =>
      refine ⟨hne, ?_⟩
      intro hm
      have := hf x c hm
      rw [hnm] at this
      cases this

/-- A failing describe that got issued is the very last call issued, is
issued once, and the whole run raised. -/
theorem runSteps_desc_fail_last (p : Ec2Provider) (c : ApiCall) (ss : List Step)
    (hgood : ∀ s ∈ ss, descStepOk c s)
    (hmem : c ∈ (runSteps p ss).1) :
    (runSteps p ss).1.getLast? = some c ∧ (runSteps p ss).1.count c = 1 ∧
      (runSteps p ss).2 = true := by
  induction ss with
  | nil => simp [runSteps] at hmem
  | cons s rest ih =>
      have hnots : (runStep p s).2 = false → c ∉ (runStep p s).1 := by
        intro hok hcs
        have hg := hgood s (List.mem_cons_self s rest)
        cases s with
        | descBlock d body =>
            cases body with
            | error e => simp [runStep] at hok
            | ok cs =>
                simp only [descStepOk] at hg
                simp only [runStep] at hcs
                rcases List.mem_cons.mp hcs with rfl | hm
                · exact hg.1 rfl
                · exact hg.2 (runCalls_subset p cs c hm)
        | calls cs =>
            simp only [descStepOk] at hg
            exact hg (runCalls_subset p cs c hcs)
      cases hs : (runStep p s).2 with
      | true =>
          simp only [runSteps, hs, if_true] at hmem ⊢
          have hg := hgood s (List.mem_cons_self s rest)
          cases s with
          | descBlock d body =>
              cases body with
              | error e =>
                  simp only [runStep, List.mem_singleton] at hmem ⊢
                  subst hmem
                  exact ⟨rfl, by simp, trivial⟩
              | ok cs =>
                  simp only [descStepOk] at hg
                  simp only [runStep] at hmem
                  rcases List.mem_cons.mp hmem with rfl | hm
                  · exact absurd rfl hg.1
                  · exact absurd (runCalls_subset p cs c hm) hg.2
          | calls cs =>
              simp only [descStepOk] at hg
              simp only [runStep] at hmem
              exact absurd (runCalls_subset p cs c hmem) hg
      | false =>
          simp only [runSteps, hs, Bool.false_eq_true, if_false] at hmem ⊢
          rcases List.mem_append.mp hmem with hc | hc
          · exact absurd hc (hnots hs)
          · obtain ⟨hl, hcnt, hsnd⟩ :=
              ih (fun x hx => hgood x (List.mem_cons_of_mem s hx)) hc
            refine ⟨?_, ?_, hsnd⟩
            · rw [List.getLast?_append_of_ne_nil _
                (by intro h0; rw [h0] at hc; simp at hc), hl]
            · rw [List.count_append, List.count_eq_zero.mpr (hnots hs), hcnt]

/-! ### List helpers -/

/-- If a list decomposes as `front ++ [v]` with `v` not in `front`, any
prefix of it containing `v` is the whole list, so `v` is the prefix's last
element. -/
theorem last_of_app {α : Type} :
    ∀ (front trace t : List α) (v : α), trace ++ t = front ++ [v] →
      v ∈ trace → v ∉ front → trace.getLast? = some v := by
  intro front
  induction front with
  | nil =>
      intro trace t v heq hv _
      cases trace with
      | nil => simp at hv
      | cons a tr =>
          have h1 : a = v ∧ tr ++ t = [] := by simpa using heq
          obtain ⟨rfl, h2⟩ := h1
          obtain ⟨rfl, -⟩ := List.append_eq_nil.mp h2
          rfl
  | cons f fr ih =>
      intro trace t v heq hv hnf
      cases trace with
      | nil => simp at hv
      | cons a tr =>
          have h1 : a = f ∧ tr ++ t = fr ++ [v] := by simpa using heq
          obtain ⟨rfl, h2⟩ := h1
          have hvtr : v ∈ tr := by
            rcases List.mem_cons.mp hv with rfl | h
            · exact absurd (List.mem_cons_self v fr) hnf
            · exact h
          have hlast := ih tr t v h2 hvtr fun h => hnf (List.mem_cons_of_mem _ h)
          cases tr with
          | nil => simp at hvtr
          | cons b u => rw [List.getLast?_cons_cons]; exact hlast

/-- If a list decomposes as `l1 ++ a :: l2` with every occurrence of `b`
strictly after the shown `a` (that is, `b ∉ l1` and `b ≠ a`), then a prefix
of it containing `b` also decomposes at that `a` with `b` after it. -/
theorem split_of_app {α : Type} :
    ∀ (l1 : List α) (trace t l2 : List α) (a b : α),
      trace ++ t = l1 ++ a :: l2 → b ∈ trace → b ∉ l1 → b ≠ a →
      ∃ m1 m2, trace = m1 ++ a :: m2 ∧ b ∈ m2 := by
  intro l1
  induction l1 with
  | nil =>
      intro trace t l2 a b heq hb _ hba
      cases trace with
      | nil => simp at hb
      | cons x tr =>
          have h1 : x = a ∧ tr ++ t = l2 := by simpa using heq
          obtain ⟨rfl, -⟩ := h1
          have hbtr : b ∈ tr := by
            rcases List.mem_cons.mp hb with rfl | h
            · exact absurd rfl hba
            · exact h
          exact ⟨[], tr, rfl, hbtr⟩
  | cons f fr ih =>
      intro trace t l2 a b heq hb hb1 hba
      cases trace with
      | nil => simp at hb
      | cons x tr =>
          have h1 : x = f ∧ tr ++ t = fr ++ a :: l2 := by simpa using heq
          obtain ⟨rfl, h2⟩ := h1
          have hbtr : b ∈ tr := by
            rcases List.mem_cons.mp hb with rfl | h
            · exact absurd (List.mem_cons_self b fr) hb1
            · exact h
          obtain ⟨m1, m2, htr, hm⟩ :=
            ih tr t l2 a b h2 hbtr (fun h => hb1 (List.mem_cons_of_mem _ h)) hba
          exact ⟨x :: m1, m2, by rw [htr, List.cons_append], hm⟩

/-- Appending on the left does not change a known last element. -/
theorem getLast?_app_fixed {α : Type} (l₁ l₂ : List α) (v : α)
    (h : l₂.getLast? = some v) : (l₁ ++ l₂).getLast? = some v := by
  have hne : l₂ ≠ [] := by
    intro h0
    rw [h0] at h
    cases h
  rw [List.getLast?_append_of_ne_nil l₁ hne]
  exact h

/-- Split a list at the first occurrence of a member. -/
theorem first_split {α : Type} [DecidableEq α] {x : α} {l : List α} (h : x ∈ l) :
    ∃ u w, l = u ++ x :: w ∧ x ∉ u := by
  induction l with
  | nil => simp at h
  | cons a t ih =>
      by_cases hx : x = a
      · exact ⟨[], t, by rw [hx]; simp, by simp⟩
      · have hxt : x ∈ t := by
          rcases List.mem_cons.mp h with h0 | h0
          · exact absurd h0 hx
          · exact h0
        obtain ⟨u, w, rfl, hnu⟩ := ih hxt
        exact ⟨a :: u, w, rfl, by simp [hx, hnu]⟩

/-! ### Shape of the generated call lists -/

theorem mem_igwCalls {region vpc : String} {igws : List String} {c : ApiCall}
    (h : c ∈ igwCalls region vpc igws) :
    ∃ i ∈ igws, c = ApiCall.detachInternetGateway region i vpc ∨
      c = ApiCall.deleteInternetGateway region i := by
  simp only [igwCalls, List.mem_flatMap, List.mem_cons, List.mem_singleton,
    List.not_mem_nil, or_false] at h
  obtain ⟨i, hi, hc⟩ := h
  exact ⟨i, hi, hc⟩

theorem mem_subnetCalls {region : String} {subs : List Subnet} {c : ApiCall}
    (h : c ∈ subnetCalls region subs) :
    ∃ s ∈ subs, c = ApiCall.deleteSubnet region s.subnetId := by
  simp only [subnetCalls, List.mem_map] at h
  obtain ⟨s, hs, hc⟩ := h
  exact ⟨s, hs, hc.symm⟩

theorem mem_routeTableCalls {region : String} {rt : RouteTable} {c : ApiCall}
    (h : c ∈ routeTableCalls region rt) :
    (∃ a ∈ rt.associations, a.main = false ∧
        c = ApiCall.disassociateRouteTable region a.routeTableAssociationId) ∨
      ((∀ a ∈ rt.associations, a.main = false) ∧
        c = ApiCall.deleteRouteTable region rt.routeTableId) := by
  simp only [routeTableCalls, List.mem_append, List.mem_map, List.mem_filter] at h
  rcases h with ⟨a, ⟨ha, hmain⟩, hc⟩ | h
  · exact Or.inl ⟨a, ha, by simpa using hmain, hc.symm⟩
  · rcases hmain : rt.associations.any fun a => a.main with hfalse | htrue
    · rw [hmain] at h
      simp only [Bool.false_eq_true, if_false, List.mem_singleton] at h
      refine Or.inr ⟨?_, h⟩
      intro a ha
      have := List.any_eq_false.mp hmain a ha
      simpa using this
    · rw [hmain] at h
      simp at h

theorem mem_rtsCalls {region : String} {rts : List RouteTable} {c : ApiCall}
    (h : c ∈ rts.flatMap (routeTableCalls region)) :
    ∃ rt ∈ rts,
      (∃ a ∈ rt.associations, a.main = false ∧
          c = ApiCall.disassociateRouteTable region a.routeTableAssociationId) ∨
        ((∀ a ∈ rt.associations, a.main = false) ∧
          c = ApiCall.deleteRouteTable region rt.routeTableId) := by
  rw [List.mem_flatMap] at h
  obtain ⟨rt, hrt, hc⟩ := h
  exact ⟨rt, hrt, mem_routeTableCalls hc⟩

theorem mem_aclCalls {region : String} {acls : List NetworkAcl} {c : ApiCall}
    (h : c ∈ aclCalls region acls) :
    ∃ a ∈ acls, a.isDefault = false ∧ c = ApiCall.deleteNetworkAcl region a.networkAclId := by
  simp only [aclCalls, List.mem_map, List.mem_filter] at h
  obtain ⟨a, ⟨ha, hdef⟩, hc⟩ := h
  exact ⟨a, ha, by simpa using hdef, hc.symm⟩

theorem mem_sgCalls {region : String} {sgs : List SecurityGroup} {c : ApiCall}
    (h : c ∈ sgCalls region sgs) :
    ∃ s ∈ sgs, s.groupName ≠ "default" ∧ c = ApiCall.deleteSecurityGroup region s.groupId := by
  simp only [sgCalls, List.mem_map, List.mem_filter] at h
  obtain ⟨s, ⟨hs, hname⟩, hc⟩ := h
  exact ⟨s, hs, by simpa using hname, hc.symm⟩

/-- Membership in a describe block's full call list: the describe itself,
or a generated call from a successful response. -/
theorem mem_secOf {α : Type} {resp : Except Unit α} {f : α → List ApiCall}
    {d c : ApiCall} (h : c ∈ stepFull (Step.descBlock d (resp.map f))) :
    c = d ∨ ∃ x, resp = Except.ok x ∧ c ∈ f x := by
  cases resp with
  | error e =>
      simp only [Except.map, stepFull, List.mem_singleton] at h
      exact Or.inl h
  | ok x =>
      simp only [Except.map, stepFull, List.mem_cons] at h
      rcases h with rfl | hm
      · exact Or.inl rfl
      · exact Or.inr ⟨x, rfl, hm⟩

/-! ### Structure of the full delete trace -/

theorem ddrSteps_descOk (p : Ec2Provider) (region vpc : String) :
    ∀ s ∈ ddrSteps p region vpc, stepDescOk s := by
  intro s hs
  simp only [ddrSteps, List.mem_cons, List.not_mem_nil, or_false] at hs
  rcases hs with rfl | rfl | rfl | rfl | rfl | rfl <;> simp [stepDescOk, isMutation]

/-- The full delete trace splits into its six sections. -/
theorem ddr_full_decomp (p : Ec2Provider) (region vpc : String) :
    fullDeleteTrace p region vpc =
      ddrSection p region vpc 0 ++ (ddrSection p region vpc 1 ++ (ddrSection p region vpc 2 ++
        (ddrSection p region vpc 3 ++ (ddrSection p region vpc 4 ++
          [ApiCall.deleteVpc region vpc])))) := rfl

/-- Every call of the full delete trace is the block's describe call or a
call generated from the block's successful describe response. -/
theorem mem_fullDeleteTrace (p : Ec2Provider) (region vpc : String) (c : ApiCall)
    (h : c ∈ fullDeleteTrace p region vpc) :
    (c = ApiCall.describeInternetGateways region vpc ∨
      ∃ igws, p.igwsDelResp region vpc = Except.ok igws ∧ c ∈ igwCalls region vpc igws) ∨
    (c = ApiCall.describeSubnets region vpc ∨
      ∃ subs, p.subnetsDelResp region vpc = Except.ok subs ∧ c ∈ subnetCalls region subs) ∨
    (c = ApiCall.describeRouteTables region vpc ∨
      ∃ rts, p.routeTablesResp region vpc = Except.ok rts ∧
        c ∈ rts.flatMap (routeTableCalls region)) ∨
    (c = ApiCall.describeNetworkAcls region vpc ∨
      ∃ acls, p.networkAclsResp region vpc = Except.ok acls ∧ c ∈ aclCalls region acls) ∨
    (c = ApiCall.describeSecurityGroups region vpc ∨
      ∃ sgs, p.securityGroupsResp region vpc = Except.ok sgs ∧ c ∈ sgCalls region sgs) ∨
    c = ApiCall.deleteVpc region vpc := by
  simp only [fullDeleteTrace, ddrSteps, List.map_cons, List.map_nil, List.flatten_cons,
    List.flatten_nil, List.append_nil, List.mem_append] at h
  rcases h with h | h | h | h | h | h
  · exact Or.inl (mem_secOf h)
  · exact Or.inr (Or.inl (mem_secOf h))
  · exact Or.inr (Or.inr (Or.inl (mem_secOf h)))
  · exact Or.inr (Or.inr (Or.inr (Or.inl (mem_secOf h))))
  · exact Or.inr (Or.inr (Or.inr (Or.inr (Or.inl (mem_secOf h)))))
  · simp only [stepFull, List.mem_singleton] at h
    exact Or.inr (Or.inr (Or.inr (Or.inr (Or.inr h))))

/-! ### Phases of the sections -/

theorem phase_igwCalls {region vpc : String} {igws : List String} :
    ∀ c ∈ igwCalls region vpc igws, callPhase c = 0 := by
  intro c hc
  rcases mem_igwCalls hc with ⟨i, -, rfl | rfl⟩ <;> rfl

theorem phase_subnetCalls {region : String} {subs : List Subnet} :
    ∀ c ∈ subnetCalls region subs, callPhase c = 1 := by
  intro c hc
  rcases mem_subnetCalls hc with ⟨s, -, rfl⟩
  rfl

theorem phase_rtsCalls {region : String} {rts : List RouteTable} :
    ∀ c ∈ rts.flatMap (routeTableCalls region), callPhase c = 2 := by
  intro c hc
  rcases mem_rtsCalls hc with ⟨rt, -, ⟨a, -, -, rfl⟩ | ⟨-, rfl⟩⟩ <;> rfl

theorem phase_aclCalls {region : String} {acls : List NetworkAcl} :
    ∀ c ∈ aclCalls region acls, callPhase c = 3 := by
  intro c hc
  rcases mem_aclCalls hc with ⟨a, -, -, rfl⟩
  rfl

theorem phase_sgCalls {region : String} {sgs : List SecurityGroup} :
    ∀ c ∈ sgCalls region sgs, callPhase c = 4 := by
  intro c hc
  rcases mem_sgCalls hc with ⟨s, -, -, rfl⟩
  rfl

theorem mutation_igwCalls {region vpc : String} {igws : List String} :
    ∀ c ∈ igwCalls region vpc igws, isMutation c = true := by
  intro c hc
  rcases mem_igwCalls hc with ⟨i, -, rfl | rfl⟩ <;> rfl

theorem mutation_subnetCalls {region : String} {subs : List Subnet} :
    ∀ c ∈ subnetCalls region subs, isMutation c = true := by
  intro c hc
  rcases mem_subnetCalls hc with ⟨s, -, rfl⟩
  rfl

theorem mutation_rtsCalls {region : String} {rts : List RouteTable} :
    ∀ c ∈ rts.flatMap (routeTableCalls region), isMutation c = true := by
  intro c hc
  rcases mem_rtsCalls hc with ⟨rt, -, ⟨a, -, -, rfl⟩ | ⟨-, rfl⟩⟩ <;> rfl

theorem mutation_aclCalls {region : String} {acls : List NetworkAcl} :
    ∀ c ∈ aclCalls region acls, isMutation c = true := by
  intro c hc
  rcases mem_aclCalls hc with ⟨a, -, -, rfl⟩
  rfl

theorem mutation_sgCalls {region : String} {sgs : List SecurityGroup} :
    ∀ c ∈ sgCalls region sgs, isMutation c = true := by
  intro c hc
  rcases mem_sgCalls hc with ⟨s, -, -, rfl⟩
  rfl

theorem ddrSection_phase0 (p : Ec2Provider) (region vpc : String) :
    ∀ c ∈ ddrSection p region vpc 0, callPhase c = 0 := by
  intro c hc
  simp only [ddrSection] at hc
  rcases mem_secOf hc with rfl | ⟨x, -, hm⟩
  · rfl
  · exact phase_igwCalls c hm

theorem ddrSection_phase1 (p : Ec2Provider) (region vpc : String) :
    ∀ c ∈ ddrSection p region vpc 1, callPhase c = 1 := by
  intro c hc
  simp only [ddrSection] at hc
  rcases mem_secOf hc with rfl | ⟨x, -, hm⟩
  · rfl
  · exact phase_subnetCalls c hm

theorem ddrSection_phase2 (p : Ec2Provider) (region vpc : String) :
    ∀ c ∈ ddrSection p region vpc 2, callPhase c = 2 := by
  intro c hc
  simp only [ddrSection] at hc
  rcases mem_secOf hc with rfl | ⟨x, -, hm⟩
  · rfl
  · exact phase_rtsCalls c hm

theorem ddrSection_phase3 (p : Ec2Provider) (region vpc : String) :
    ∀ c ∈ ddrSection p region vpc 3, callPhase c = 3 := by
  intro c hc
  simp only [ddrSection] at hc
  rcases mem_secOf hc with rfl | ⟨x, -, hm⟩
  · rfl
  · exact phase_aclCalls c hm

theorem ddrSection_phase4 (p : Ec2Provider) (region vpc : String) :
    ∀ c ∈ ddrSection p region vpc 4, callPhase c = 4 := by
  intro c hc
  simp only [ddrSection] at hc
  rcases mem_secOf hc with rfl | ⟨x, -, hm⟩
  · rfl
  · exact phase_sgCalls c hm

/-- Appending a constant-phase block before a phase-ascending list keeps it
phase-ascending. -/
theorem pairwise_phase_append {l₁ l₂ : List ApiCall} {k : Nat}
    (h₁ : ∀ c ∈ l₁, callPhase c = k) (h₂ : ∀ c ∈ l₂, k ≤ callPhase c)
    (hp₂ : l₂.Pairwise fun a b => callPhase a ≤ callPhase b) :
    (l₁ ++ l₂).Pairwise fun a b => callPhase a ≤ callPhase b := by
  refine List.pairwise_append.mpr ⟨?_, hp₂, ?_⟩
  · exact List.pairwise_of_forall_mem_list fun a ha b hb =>
      le_of_eq ((h₁ a ha).trans (h₁ b hb).symm)
  · intro a ha b hb
    rw [h₁ a ha]
    exact h₂ b hb

theorem phase_ge_append {l₁ l₂ : List ApiCall} {k k₁ : Nat} (hk : k ≤ k₁)
    (h₁ : ∀ c ∈ l₁, callPhase c = k₁) (h₂ : ∀ c ∈ l₂, k ≤ callPhase c) :
    ∀ c ∈ l₁ ++ l₂, k ≤ callPhase c := by
  intro c hc
  rcases List.mem_append.mp hc with hc | hc
  · rw [h₁ c hc]; exact hk
  · exact h₂ c hc

/-- The full delete trace is ordered by phase: gateways, then subnets, then
route tables, then ACLs, then security groups, then the VPC delete. -/
theorem fullDeleteTrace_pairwise (p : Ec2Provider) (region vpc : String) :
    (fullDeleteTrace p region vpc).Pairwise fun a b => callPhase a ≤ callPhase b := by
  have h0 := ddrSection_phase0 p region vpc
  have h1 := ddrSection_phase1 p region vpc
  have h2 := ddrSection_phase2 p region vpc
  have h3 := ddrSection_phase3 p region vpc
  have h4 := ddrSection_phase4 p region vpc
  have e5 : ∀ c ∈ [ApiCall.deleteVpc region vpc], callPhase c = 5 := by
    intro c hc
    simp only [List.mem_singleton] at hc
    subst hc
    rfl
  have ge5 : ∀ c ∈ [ApiCall.deleteVpc region vpc], 4 ≤ callPhase c := by
    intro c hc
    rw [e5 c hc]
    omega
  have ge4 : ∀ c ∈ ddrSection p region vpc 4 ++ [ApiCall.deleteVpc region vpc],
      3 ≤ callPhase c :=
    phase_ge_append (by omega) h4 fun c hc => le_trans (by omega) (ge5 c hc)
  have ge3 : ∀ c ∈ ddrSection p region vpc 3 ++ (ddrSection p region vpc 4 ++
      [ApiCall.deleteVpc region vpc]), 2 ≤ callPhase c :=
    phase_ge_append (by omega) h3 fun c hc => le_trans (by omega) (ge4 c hc)
  have ge2 : ∀ c ∈ ddrSection p region vpc 2 ++ (ddrSection p region vpc 3 ++
      (ddrSection p region vpc 4 ++ [ApiCall.deleteVpc region vpc])), 1 ≤ callPhase c :=
    phase_ge_append (by omega) h2 fun c hc => le_trans (by omega) (ge3 c hc)
  have hp5 : ([ApiCall.deleteVpc region vpc]).Pairwise
      (fun a b => callPhase a ≤ callPhase b) := List.pairwise_singleton _ _
  rw [ddr_full_decomp p region vpc]
  refine pairwise_phase_append h0 (fun c _ => Nat.zero_le _)
    (pairwise_phase_append h1 ge2
      (pairwise_phase_append h2 (fun c hc => le_trans (by omega) (ge3 c hc))
        (pairwise_phase_append h3 (fun c hc => le_trans (by omega) (ge4 c hc))
          (pairwise_phase_append h4 (fun c hc => le_trans (by omega) (ge5 c hc)) hp5))))

/-- The last call of the full delete trace is the VPC delete. -/
theorem fullDeleteTrace_getLast (p : Ec2Provider) (region vpc : String) :
    (fullDeleteTrace p region vpc).getLast? = some (ApiCall.deleteVpc region vpc) := by
  rw [ddr_full_decomp p region vpc]
  exact getLast?_app_fixed _ _ _ (getLast?_app_fixed _ _ _ (getLast?_app_fixed _ _ _
    (getLast?_app_fixed _ _ _ (getLast?_app_fixed _ _ _ rfl))))

/-- Every call of the full delete trace targets the client's region. -/
theorem fullDeleteTrace_region (p : Ec2Provider) (region vpc : String) :
    ∀ c ∈ fullDeleteTrace p region vpc, callRegion c = some region := by
  intro c hc
  rcases mem_fullDeleteTrace p region vpc c hc with
    (rfl | ⟨igws, -, hm⟩) | (rfl | ⟨subs, -, hm⟩) | (rfl | ⟨rts, -, hm⟩) |
    (rfl | ⟨acls, -, hm⟩) | (rfl | ⟨sgs, -, hm⟩) | rfl
  · rfl
  · rcases mem_igwCalls hm with ⟨i, -, rfl | rfl⟩ <;> rfl
  · rfl
  · rcases mem_subnetCalls hm with ⟨s, -, rfl⟩; rfl
  · rfl
  · rcases mem_rtsCalls hm with ⟨rt, -, ⟨a, -, -, rfl⟩ | ⟨-, rfl⟩⟩ <;> rfl
  · rfl
  · rcases mem_aclCalls hm with ⟨a, -, -, rfl⟩; rfl
  · rfl
  · rcases mem_sgCalls hm with ⟨s, -, -, rfl⟩; rfl
  · rfl

/-! ### Consequences for the actual trace of delete_dependent_resources -/

/-- The calls actually issued form a prefix of the full delete trace. -/
theorem ddr_app (p : Ec2Provider) (region vpc : String) :
    ∃ t, (delete_dependent_resources p region vpc).1 ++ t = fullDeleteTrace p region vpc :=
  runSteps_app p (ddrSteps p region vpc)

/-- Hence they form a sublist of the full delete trace. -/
theorem ddr_sublist (p : Ec2Provider) (region vpc : String) :
    List.Sublist (delete_dependent_resources p region vpc).1
      (fullDeleteTrace p region vpc) := by
  obtain ⟨t, ht⟩ := ddr_app p region vpc
  rw [← ht]
  exact List.sublist_append_left _ t

/-- Every call actually issued belongs to the full delete trace. -/
theorem ddr_mem_full (p : Ec2Provider) (region vpc : String) (c : ApiCall)
    (h : c ∈ (delete_dependent_resources p region vpc).1) :
    c ∈ fullDeleteTrace p region vpc :=
  (ddr_sublist p region vpc).subset h

/-- The issued calls are ordered by phase. -/
theorem ddr_pairwise (p : Ec2Provider) (region vpc : String) :
    (delete_dependent_resources p region vpc).1.Pairwise
      fun a b => callPhase a ≤ callPhase b :=
  List.Pairwise.sublist (ddr_sublist p region vpc) (fullDeleteTrace_pairwise p region vpc)

/-- If the VPC delete was issued, it is the last call issued. -/
theorem ddr_vpc_last (p : Ec2Provider) (region vpc : String)
    (h : ApiCall.deleteVpc region vpc ∈ (delete_dependent_resources p region vpc).1) :
    (delete_dependent_resources p region vpc).1.getLast? =
      some (ApiCall.deleteVpc region vpc) := by
  obtain ⟨t, ht⟩ := ddr_app p region vpc
  have hfront : ApiCall.deleteVpc region vpc ∉
      ddrSection p region vpc 0 ++ (ddrSection p region vpc 1 ++ (ddrSection p region vpc 2 ++
        (ddrSection p region vpc 3 ++ ddrSection p region vpc 4))) := by
    intro hmem
    rcases List.mem_append.mp hmem with hc | hc
    · have := ddrSection_phase0 p region vpc _ hc; simp [callPhase] at this
    rcases List.mem_append.mp hc with hc | hc
    · have := ddrSection_phase1 p region vpc _ hc; simp [callPhase] at this
    rcases List.mem_append.mp hc with hc | hc
    · have := ddrSection_phase2 p region vpc _ hc; simp [callPhase] at this
    rcases List.mem_append.mp hc with hc | hc
    · have := ddrSection_phase3 p region vpc _ hc; simp [callPhase] at this
    · have := ddrSection_phase4 p region vpc _ hc; simp [callPhase] at this
  refine last_of_app _ _ t _ ?_ h hfront
  rw [ht, ddr_full_decomp p region vpc]
  simp [List.append_assoc]

/-- Helper facts about gateway call lists. -/
theorem igwCalls_append (region vpc : String) (u w : List String) :
    igwCalls region vpc (u ++ w) = igwCalls region vpc u ++ igwCalls region vpc w := by
  simp [igwCalls]

theorem igwCalls_cons (region vpc i : String) (w : List String) :
    igwCalls region vpc (i :: w) =
      ApiCall.detachInternetGateway region i vpc ::
        ApiCall.deleteInternetGateway region i :: igwCalls region vpc w := rfl

theorem not_mem_igwCalls_delete {region vpc i : String} {u : List String}
    (hnu : i ∉ u) : ApiCall.deleteInternetGateway region i ∉ igwCalls region vpc u := by
  intro hmem
  rcases mem_igwCalls hmem with ⟨j, hj, hc | hc⟩
  · simp at hc
  · simp only [ApiCall.deleteInternetGateway.injEq, true_and] at hc
    subst hc
    exact hnu hj

/-- If a gateway delete was issued, the matching detach was issued before
it. -/
theorem ddr_detach_before_delete (p : Ec2Provider) (region vpc i : String)
    (h : ApiCall.deleteInternetGateway region i ∈ (delete_dependent_resources p region vpc).1) :
    ∃ l1 l2, (delete_dependent_resources p region vpc).1 =
        l1 ++ ApiCall.detachInternetGateway region i vpc :: l2 ∧
      ApiCall.deleteInternetGateway region i ∈ l2 := by
  obtain ⟨t, ht⟩ := ddr_app p region vpc
  have hfull := ddr_mem_full p region vpc _ h
  rcases mem_fullDeleteTrace p region vpc _ hfull with
    (heq | ⟨igws, hok, hm⟩) | (heq | ⟨subs, -, hm⟩) | (heq | ⟨rts, -, hm⟩) |
    (heq | ⟨acls, -, hm⟩) | (heq | ⟨sgs, -, hm⟩) | heq
  case intro.inl.inr.intro.intro =>
    -- the gateway section case
    have hj : i ∈ igws := by
      rcases mem_igwCalls hm with ⟨j, hj, hc | hc⟩
      · simp at hc
      · simp only [ApiCall.deleteInternetGateway.injEq, true_and] at hc
        subst hc
        exact hj
    obtain ⟨u, w, husplit, hnu⟩ := first_split hj
    have hshape : fullDeleteTrace p region vpc =
        (ApiCall.describeInternetGateways region vpc :: igwCalls region vpc u) ++
          ApiCall.detachInternetGateway region i vpc ::
            (ApiCall.deleteInternetGateway region i ::
              (igwCalls region vpc w ++ (ddrSection p region vpc 1 ++
                (ddrSection p region vpc 2 ++ (ddrSection p region vpc 3 ++
                  (ddrSection p region vpc 4 ++ [ApiCall.deleteVpc region vpc])))))) := by
      rw [ddr_full_decomp p region vpc]
      have hs0 : ddrSection p region vpc 0 =
          ApiCall.describeInternetGateways region vpc ::
            (igwCalls region vpc u ++
              (ApiCall.detachInternetGateway region i vpc ::
                ApiCall.deleteInternetGateway region i :: igwCalls region vpc w)) := by
        simp only [ddrSection, hok, Except.map, stepFull, husplit, igwCalls_append,
          igwCalls_cons]
      rw [hs0]
      simp [List.append_assoc]
    have hne : ApiCall.deleteInternetGateway region i ∉
        ApiCall.describeInternetGateways region vpc :: igwCalls region vpc u := by
      intro hmem
      rcases List.mem_cons.mp hmem with heq2 | hmem2
      · simp at heq2
      · exact not_mem_igwCalls_delete hnu hmem2
    exact split_of_app _ _ t _ _ _ (by rw [ht]; exact hshape) h hne (by simp)
  all_goals first
    | (simp at heq)
    | (rcases mem_subnetCalls hm with ⟨s, -, heq2⟩; simp at heq2)
    | (rcases mem_rtsCalls hm with ⟨rt, -, ⟨a, -, -, heq2⟩ | ⟨-, heq2⟩⟩ <;> simp at heq2)
    | (rcases mem_aclCalls hm with ⟨a, -, -, heq2⟩; simp at heq2)
    | (rcases mem_sgCalls hm with ⟨s, -, -, heq2⟩; simp at heq2)

/-- Any ACL delete actually issued targets a non-default ACL from the
describe response. -/
theorem ddr_acl_sound (p : Ec2Provider) (region vpc aid : String)
    (h : ApiCall.deleteNetworkAcl region aid ∈ (delete_dependent_resources p region vpc).1) :
    ∃ acls, p.networkAclsResp region vpc = Except.ok acls ∧
      ∃ a ∈ acls, a.isDefault = false ∧ a.networkAclId = aid := by
  have hfull := ddr_mem_full p region vpc _ h
  rcases mem_fullDeleteTrace p region vpc _ hfull with
    (heq | ⟨igws, -, hm⟩) | (heq | ⟨subs, -, hm⟩) | (heq | ⟨rts, -, hm⟩) |
    (heq | ⟨acls, hok, hm⟩) | (heq | ⟨sgs, -, hm⟩) | heq
  · simp at heq
  · rcases mem_igwCalls hm with ⟨i, -, heq2 | heq2⟩ <;> simp at heq2
  · simp at heq
  · rcases mem_subnetCalls hm with ⟨s, -, heq2⟩; simp at heq2
  · simp at heq
  · rcases mem_rtsCalls hm with ⟨rt, -, ⟨a, -, -, heq2⟩ | ⟨-, heq2⟩⟩ <;> simp at heq2
  · simp at heq
  · rcases mem_aclCalls hm with ⟨a, ha, hdef, heq2⟩
    simp only [ApiCall.deleteNetworkAcl.injEq, true_and] at heq2
    exact ⟨acls, hok, a, ha, hdef, heq2.symm⟩
  · simp at heq
  · rcases mem_sgCalls hm with ⟨s, -, -, heq2⟩; simp at heq2
  · simp at heq

/-- Any security-group delete actually issued targets a group from the
describe response whose name is not `default`. -/
theorem ddr_sg_sound (p : Ec2Provider) (region vpc gid : String)
    (h : ApiCall.deleteSecurityGroup region gid ∈ (delete_dependent_resources p region vpc).1) :
    ∃ sgs, p.securityGroupsResp region vpc = Except.ok sgs ∧
      ∃ s ∈ sgs, s.groupName ≠ "default" ∧ s.groupId = gid := by
  have hfull := ddr_mem_full p region vpc _ h
  rcases mem_fullDeleteTrace p region vpc _ hfull with
    (heq | ⟨igws, -, hm⟩) | (heq | ⟨subs, -, hm⟩) | (heq | ⟨rts, -, hm⟩) |
    (heq | ⟨acls, -, hm⟩) | (heq | ⟨sgs, hok, hm⟩) | heq
  · simp at heq
  · rcases mem_igwCalls hm with ⟨i, -, heq2 | heq2⟩ <;> simp at heq2
  · simp at heq
  · rcases mem_subnetCalls hm with ⟨s, -, heq2⟩; simp at heq2
  · simp at heq
  · rcases mem_rtsCalls hm with ⟨rt, -, ⟨a, -, -, heq2⟩ | ⟨-, heq2⟩⟩ <;> simp at heq2
  · simp at heq
  · rcases mem_aclCalls hm with ⟨a, -, -, heq2⟩; simp at heq2
  · simp at heq
  · rcases mem_sgCalls hm with ⟨s, hs, hname, heq2⟩
    simp only [ApiCall.deleteSecurityGroup.injEq, true_and] at heq2
    exact ⟨sgs, hok, s, hs, hname, heq2.symm⟩
  · simp at heq

/-- Any route-table disassociation actually issued targets a non-main
association from the describe response. -/
theorem ddr_rt_disassoc_sound (p : Ec2Provider) (region vpc aid : String)
    (h : ApiCall.disassociateRouteTable region aid ∈
      (delete_dependent_resources p region vpc).1) :
    ∃ rts, p.routeTablesResp region vpc = Except.ok rts ∧
      ∃ rt ∈ rts, ∃ a ∈ rt.associations, a.main = false ∧
        a.routeTableAssociationId = aid := by
  have hfull := ddr_mem_full p region vpc _ h
  rcases mem_fullDeleteTrace p region vpc _ hfull with
    (heq | ⟨igws, -, hm⟩) | (heq | ⟨subs, -, hm⟩) | (heq | ⟨rts, hok, hm⟩) |
    (heq | ⟨acls, -, hm⟩) | (heq | ⟨sgs, -, hm⟩) | heq
  · simp at heq
  · rcases mem_igwCalls hm with ⟨i, -, heq2 | heq2⟩ <;> simp at heq2
  · simp at heq
  · rcases mem_subnetCalls hm with ⟨s, -, heq2⟩; simp at heq2
  · simp at heq
  · rcases mem_rtsCalls hm with ⟨rt, hrt, ⟨a, ha, hmain, heq2⟩ | ⟨-, heq2⟩⟩
    · simp only [ApiCall.disassociateRouteTable.injEq, true_and] at heq2
      exact ⟨rts, hok, rt, hrt, a, ha, hmain, heq2.symm⟩
    · simp at heq2
  · simp at heq
  · rcases mem_aclCalls hm with ⟨a, -, -, heq2⟩; simp at heq2
  · simp at heq
  · rcases mem_sgCalls hm with ⟨s, -, -, heq2⟩; simp at heq2
  · simp at heq

/-- Any route-table delete actually issued targets a table from the
describe response none of whose associations is the main one. -/
theorem ddr_rt_delete_sound (p : Ec2Provider) (region vpc rid : String)
    (h : ApiCall.deleteRouteTable region rid ∈
      (delete_dependent_resources p region vpc).1) :
    ∃ rts, p.routeTablesResp region vpc = Except.ok rts ∧
      ∃ rt ∈ rts, rt.routeTableId = rid ∧ ∀ a ∈ rt.associations, a.main = false := by
  have hfull := ddr_mem_full p region vpc _ h
  rcases mem_fullDeleteTrace p region vpc _ hfull with
    (heq | ⟨igws, -, hm⟩) | (heq | ⟨subs, -, hm⟩) | (heq | ⟨rts, hok, hm⟩) |
    (heq | ⟨acls, -, hm⟩) | (heq | ⟨sgs, -, hm⟩) | heq
  · simp at heq
  · rcases mem_igwCalls hm with ⟨i, -, heq2 | heq2⟩ <;> simp at heq2
  · simp at heq
  · rcases mem_subnetCalls hm with ⟨s, -, heq2⟩; simp at heq2
  · simp at heq
  · rcases mem_rtsCalls hm with ⟨rt, hrt, ⟨a, -, -, heq2⟩ | ⟨hall, heq2⟩⟩
    · simp at heq2
    · simp only [ApiCall.deleteRouteTable.injEq, true_and] at heq2
      exact ⟨rts, hok, rt, hrt, heq2.symm, hall⟩
  · simp at heq
  · rcases mem_aclCalls hm with ⟨a, -, -, heq2⟩; simp at heq2
  · simp at heq
  · rcases mem_sgCalls hm with ⟨s, -, -, heq2⟩; simp at heq2
  · simp at heq

/-- A failing describe issued during `delete_dependent_resources` is the
last call issued, is issued once, and the run raised. -/
theorem ddr_desc_fail_last (p : Ec2Provider) (region vpc : String) (c : ApiCall)
    (hnm : isMutation c = false) (hdesc : descFails p c = true)
    (hmem : c ∈ (delete_dependent_resources p region vpc).1) :
    (delete_dependent_resources p region vpc).1.getLast? = some c ∧
    (delete_dependent_resources p region vpc).1.count c = 1 ∧
    (delete_dependent_resources p region vpc).2 = true := by
  have hfull := ddr_mem_full p region vpc _ hmem
  rcases mem_fullDeleteTrace p region vpc _ hfull with
    (hceq | ⟨igws, -, hm⟩) | (hceq | ⟨subs, -, hm⟩) | (hceq | ⟨rts, -, hm⟩) |
    (hceq | ⟨acls, -, hm⟩) | (hceq | ⟨sgs, -, hm⟩) | hceq
  · subst hceq
    simp only [descFails] at hdesc
    rcases hresp : p.igwsDelResp region vpc with e | xs
    · refine runSteps_desc_fail_last p _ (ddrSteps p region vpc) ?_ hmem
      intro s hs
      simp only [ddrSteps, List.mem_cons, List.not_mem_nil, or_false] at hs
      rcases hs with rfl | rfl | rfl | rfl | rfl | rfl
      · simp [hresp, Except.map, descStepOk]
      · exact descStepOk_block _ _ _ _ (by simp) rfl fun x => mutation_subnetCalls
      · exact descStepOk_block _ _ _ _ (by simp) rfl fun x => mutation_rtsCalls
      · exact descStepOk_block _ _ _ _ (by simp) rfl fun x => mutation_aclCalls
      · exact descStepOk_block _ _ _ _ (by simp) rfl fun x => mutation_sgCalls
      · simp [descStepOk]
    · rw [hresp] at hdesc
      simp [respErrors] at hdesc
  · have := mutation_igwCalls c hm
    rw [hnm] at this
    cases this
  · subst hceq
    simp only [descFails] at hdesc
    rcases hresp : p.subnetsDelResp region vpc with e | xs
    · refine runSteps_desc_fail_last p _ (ddrSteps p region vpc) ?_ hmem
      intro s hs
      simp only [ddrSteps, List.mem_cons, List.not_mem_nil, or_false] at hs
      rcases hs with rfl | rfl | rfl | rfl | rfl | rfl
      · exact descStepOk_block _ _ _ _ (by simp) rfl fun x => mutation_igwCalls
      · simp [hresp, Except.map, descStepOk]
      · exact descStepOk_block _ _ _ _ (by simp) rfl fun x => mutation_rtsCalls
      · exact descStepOk_block _ _ _ _ (by simp) rfl fun x => mutation_aclCalls
      · exact descStepOk_block _ _ _ _ (by simp) rfl fun x => mutation_sgCalls
      · simp [descStepOk]
    · rw [hresp] at hdesc
      simp [respErrors] at hdesc
  · have := mutation_subnetCalls c hm
    rw [hnm] at this
    cases this
  · subst hceq
    simp only [descFails] at hdesc
    rcases hresp : p.routeTablesResp region vpc with e | xs
    · refine runSteps_desc_fail_last p _ (ddrSteps p region vpc) ?_ hmem
      intro s hs
      simp only [ddrSteps, List.mem_cons, List.not_mem_nil, or_false] at hs
      rcases hs with rfl | rfl | rfl | rfl | rfl | rfl
      · exact descStepOk_block _ _ _ _ (by simp) rfl fun x => mutation_igwCalls
      · exact descStepOk_block _ _ _ _ (by simp) rfl fun x => mutation_subnetCalls
      · simp [hresp, Except.map, descStepOk]
      · exact descStepOk_block _ _ _ _ (by simp) rfl fun x => mutation_aclCalls
      · exact descStepOk_block _ _ _ _ (by simp) rfl fun x => mutation_sgCalls
      · simp [descStepOk]
    · rw [hresp] at hdesc
      simp [respErrors] at hdesc
  · have := mutation_rtsCalls c hm
    rw [hnm] at this
    cases this
  · subst hceq
    simp only [descFails] at hdesc
    rcases hresp : p.networkAclsResp region vpc with e | xs
    · refine runSteps_desc_fail_last p _ (ddrSteps p region vpc) ?_ hmem
      intro s hs
      simp only [ddrSteps, List.mem_cons, List.not_mem_nil, or_false] at hs
      rcases hs with rfl | rfl | rfl | rfl | rfl | rfl
      · exact descStepOk_block _ _ _ _ (by simp) rfl fun x => mutation_igwCalls
      · exact descStepOk_block _ _ _ _ (by simp) rfl fun x => mutation_subnetCalls
      · exact descStepOk_block _ _ _ _ (by simp) rfl fun x => mutation_rtsCalls
      · simp [hresp, Except.map, descStepOk]
      · exact descStepOk_block _ _ _ _ (by simp) rfl fun x => mutation_sgCalls
      · simp [descStepOk]
    · rw [hresp] at hdesc
      simp [respErrors] at hdesc
  · have := mutation_aclCalls c hm
    rw [hnm] at this
    cases this
  · subst hceq
    simp only [descFails] at hdesc
    rcases hresp : p.securityGroupsResp region vpc with e | xs
    · refine runSteps_desc_fail_last p _ (ddrSteps p region vpc) ?_ hmem
      intro s hs
      simp only [ddrSteps, List.mem_cons, List.not_mem_nil, or_false] at hs
      rcases hs with rfl | rfl | rfl | rfl | rfl | rfl
      · exact descStepOk_block _ _ _ _ (by simp) rfl fun x => mutation_igwCalls
      · exact descStepOk_block _ _ _ _ (by simp) rfl fun x => mutation_subnetCalls
      · exact descStepOk_block _ _ _ _ (by simp) rfl fun x => mutation_rtsCalls
      · exact descStepOk_block _ _ _ _ (by simp) rfl fun x => mutation_aclCalls
      · simp [hresp, Except.map, descStepOk]
      · simp [descStepOk]
    · rw [hresp] at hdesc
      simp [respErrors] at hdesc
  · have := mutation_sgCalls c hm
    rw [hnm] at this
    cases this
  · subst hceq
    simp [isMutation] at hnm

/-! ### Failure-free executions -/

/-- With successful describes and no failing mutation, the run does not
raise. -/
theorem ddr_nofail_snd (p : Ec2Provider) (region vpc : String)
    (hnf : ∀ c, p.mutationFails c = false)
    {igws : List String} (h1 : p.igwsDelResp region vpc = Except.ok igws)
    {subs : List Subnet} (h2 : p.subnetsDelResp region vpc = Except.ok subs)
    {rts : List RouteTable} (h3 : p.routeTablesResp region vpc = Except.ok rts)
    {acls : List NetworkAcl} (h4 : p.networkAclsResp region vpc = Except.ok acls)
    {sgs : List SecurityGroup} (h5 : p.securityGroupsResp region vpc = Except.ok sgs) :
    (delete_dependent_resources p region vpc).2 = false := by
  simp [delete_dependent_resources, ddrSteps, runSteps, runStep, h1, h2, h3, h4, h5,
    Except.map, runCalls_nofail_snd p hnf]

/-- With successful describes and no failing mutation, the run issues the
full delete trace. -/
theorem ddr_nofail_fst (p : Ec2Provider) (region vpc : String)
    (hnf : ∀ c, p.mutationFails c = false)
    {igws : List String} (h1 : p.igwsDelResp region vpc = Except.ok igws)
    {subs : List Subnet} (h2 : p.subnetsDelResp region vpc = Except.ok subs)
    {rts : List RouteTable} (h3 : p.routeTablesResp region vpc = Except.ok rts)
    {acls : List NetworkAcl} (h4 : p.networkAclsResp region vpc = Except.ok acls)
    {sgs : List SecurityGroup} (h5 : p.securityGroupsResp region vpc = Except.ok sgs) :
    (delete_dependent_resources p region vpc).1 = fullDeleteTrace p region vpc :=
  runSteps_complete p _ (ddr_nofail_snd p region vpc hnf h1 h2 h3 h4 h5)

/-- The delete for a non-default ACL belongs to the full delete trace. -/
theorem full_acl_mem (p : Ec2Provider) (region vpc : String) {acls : List NetworkAcl}
    (h4 : p.networkAclsResp region vpc = Except.ok acls) {a : NetworkAcl} (ha : a ∈ acls)
    (hdef : a.isDefault = false) :
    ApiCall.deleteNetworkAcl region a.networkAclId ∈ fullDeleteTrace p region vpc := by
  have hin : ApiCall.deleteNetworkAcl region a.networkAclId ∈ aclCalls region acls := by
    simp only [aclCalls, List.mem_map]
    exact ⟨a, List.mem_filter.mpr ⟨ha, by simp [hdef]⟩, rfl⟩
  rw [ddr_full_decomp p region vpc]
  refine List.mem_append_right _ (List.mem_append_right _ (List.mem_append_right _
    (List.mem_append_left _ ?_)))
  simp only [ddrSection, h4, Except.map, stepFull]
  exact List.mem_cons_of_mem _ hin

/-- The delete for a non-`default` security group belongs to the full
delete trace. -/
theorem full_sg_mem (p : Ec2Provider) (region vpc : String) {sgs : List SecurityGroup}
    (h5 : p.securityGroupsResp region vpc = Except.ok sgs) {s : SecurityGroup}
    (hs : s ∈ sgs) (hname : s.groupName ≠ "default") :
    ApiCall.deleteSecurityGroup region s.groupId ∈ fullDeleteTrace p region vpc := by
  have hin : ApiCall.deleteSecurityGroup region s.groupId ∈ sgCalls region sgs := by
    simp only [sgCalls, List.mem_map]
    exact ⟨s, List.mem_filter.mpr ⟨hs, by simp [hname]⟩, rfl⟩
  rw [ddr_full_decomp p region vpc]
  refine List.mem_append_right _ (List.mem_append_right _ (List.mem_append_right _
    (List.mem_append_right _ (List.mem_append_left _ ?_))))
  simp only [ddrSection, h5, Except.map, stepFull]
  exact List.mem_cons_of_mem _ hin

/-! ### The dispatch on lines 174-179 and the region loop -/

/-- `delete_resources` issues no call, so the dispatch issues exactly the
calls of `delete_dependent_resources`. -/
theorem deleteDispatch_fst (p : Ec2Provider) (region vpc : String) (igw : Option String)
    (subnets : List Subnet) :
    (deleteDispatch p region vpc igw subnets).1 =
      (delete_dependent_resources p region vpc).1 := by
  cases h : (delete_dependent_resources p region vpc).2 with
  | true => simp [deleteDispatch, h]
  | false => simp [deleteDispatch, h, delete_resources]

/-- The dispatch always ends in the `except` branch of line 178: either
`delete_dependent_resources` raised, or the undefined name
`delete_resources` did. -/
theorem deleteDispatch_snd (p : Ec2Provider) (region vpc : String) (igw : Option String)
    (subnets : List Subnet) : (deleteDispatch p region vpc igw subnets).2 = true := by
  cases h : (delete_dependent_resources p region vpc).2 with
  | true => simp [deleteDispatch, h]
  | false => simp [deleteDispatch, h, delete_resources]

/-- With `--no-confirm`, handling a region reads no input and never gets
stuck. -/
theorem processRegion_noConfirm (p : Ec2Provider) (clientRegion : String)
    (inputs : List String) (r : String) :
    (processRegion p clientRegion true inputs r).rest = inputs ∧
    (processRegion p clientRegion true inputs r).blocked = false := by
  unfold processRegion
  cases hv : p.vpcsResp clientRegion with
  | error e => simp [hv]
  | ok vs =>
      cases vs with
      | nil => simp [hv]
      | cons vpc rest =>
          cases hg : p.igwsListResp clientRegion vpc with
          | error e => simp [hv, hg]
          | ok igws =>
              cases hs : p.subnetsListResp clientRegion vpc with
              | error e => simp [hv, hg, hs]
              | ok subs => simp [hv, hg, hs, confirm_delete]

/-- When the pending input line is a `y`/`n` answer, handling a region
never gets stuck, and consumes at most that one line. -/
theorem processRegion_step (p : Ec2Provider) (clientRegion : String) (noConfirm : Bool)
    (s : String) (tl : List String) (r : String)
    (hy : strLower s = "y" ∨ strLower s = "n") :
    (processRegion p clientRegion noConfirm (s :: tl) r).blocked = false ∧
      ((processRegion p clientRegion noConfirm (s :: tl) r).rest = s :: tl ∨
        (processRegion p clientRegion noConfirm (s :: tl) r).rest = tl) := by
  unfold processRegion
  cases hv : p.vpcsResp clientRegion with
  | error e => simp [hv]
  | ok vs =>
      cases vs with
      | nil => simp [hv]
      | cons vpc rest =>
          cases hg : p.igwsListResp clientRegion vpc with
          | error e => simp [hv, hg]
          | ok igws =>
              cases hs : p.subnetsListResp clientRegion vpc with
              | error e => simp [hv, hg, hs]
              | ok subs =>
                  cases noConfirm with
                  | true => simp [hv, hg, hs, confirm_delete]
                  | false =>
                      rcases hy with hy | hy <;>
                        simp [hv, hg, hs, confirm_delete, askLoop, hy]

/-- With `--no-confirm`, every region of the list is processed, whatever
the provider's responses and failures. -/
theorem runRegions_noConfirm (p : Ec2Provider) (clientRegion : String) :
    ∀ (regions inputs : List String),
      (runRegions p clientRegion true inputs regions).map Prod.fst = regions := by
  intro regions
  induction regions with
  | nil => intro inputs; rfl
  | cons r rest ih =>
      intro inputs
      obtain ⟨hr, hb⟩ := processRegion_noConfirm p clientRegion inputs r
      simp [runRegions, hb, hr, ih]

/-- With a stream of `y`/`n` answers long enough for the region list, every
region of the list is processed, whatever the provider's responses and
failures. -/
theorem runRegions_yn (p : Ec2Provider) (clientRegion : String) (noConfirm : Bool) :
    ∀ (regions inputs : List String),
      (∀ s ∈ inputs, strLower s = "y" ∨ strLower s = "n") →
      regions.length ≤ inputs.length →
      (runRegions p clientRegion noConfirm inputs regions).map Prod.fst = regions := by
  intro regions
  induction regions with
  | nil => intro inputs _ _; rfl
  | cons r rest ih =>
      intro inputs h1 h2
      cases inputs with
      | nil => simp at h2
      | cons s tl =>
          have hy := h1 s (List.mem_cons_self s tl)
          obtain ⟨hb, hr⟩ := processRegion_step p clientRegion noConfirm s tl r hy
          have hlen : rest.length ≤ tl.length := by
            simp only [List.length_cons] at h2
            omega
          rcases hr with hr | hr <;> simp only [runRegions, hb, Bool.false_eq_true,
            if_false, List.map_cons, hr]
          · rw [ih (s :: tl) h1 (by simp; omega)]
          · rw [ih tl (fun x hx => h1 x (List.mem_cons_of_mem s hx)) hlen]

/-! ### The targeted region -/

/-- Every call issued while handling any region targets the client's
creation-time region, never the loop variable's region. -/
theorem processRegion_client_region (p : Ec2Provider) (clientRegion : String)
    (noConfirm : Bool) (inputs : List String) (region : String) :
    ∀ c ∈ (processRegion p clientRegion noConfirm inputs region).trace,
      callRegion c = some clientRegion := by
  intro c hc
  unfold processRegion at hc
  cases hv : p.vpcsResp clientRegion with
  | error e =>
      simp only [hv, List.mem_singleton] at hc
      subst hc
      rfl
  | ok vs =>
      cases vs with
      | nil =>
          simp only [hv, List.mem_singleton] at hc
          subst hc
          rfl
      | cons vpc rest =>
          cases hg : p.igwsListResp clientRegion vpc with
          | error e =>
              simp only [hv, hg, List.mem_cons, List.not_mem_nil, or_false] at hc
              rcases hc with rfl | rfl <;> rfl
          | ok igws =>
              cases hs : p.subnetsListResp clientRegion vpc with
              | error e =>
                  simp only [hv, hg, hs, List.mem_cons, List.not_mem_nil, or_false] at hc
                  rcases hc with rfl | rfl | rfl <;> rfl
              | ok subs =>
                  obtain ⟨d, rest2, pr, heqc⟩ :
                      ∃ d rest2 pr, confirm_delete (resourceListing igws.head? subs vpc)
                        noConfirm inputs = ⟨d, rest2, pr⟩ :=
                    ⟨_, _, _, rfl⟩
                  cases d with
                  | none =>
                      simp only [hv, hg, hs, heqc, List.mem_cons, List.not_mem_nil,
                        or_false] at hc
                      rcases hc with rfl | rfl | rfl <;> rfl
                  | some b =>
                      cases b with
                      | false =>
                          simp only [hv, hg, hs, heqc, List.mem_cons, List.not_mem_nil,
                            or_false] at hc
                          rcases hc with rfl | rfl | rfl <;> rfl
                      | true =>
                          simp only [hv, hg, hs, heqc, List.mem_append, List.mem_cons,
                            List.not_mem_nil, or_false] at hc
                          rcases hc with (rfl | rfl | rfl) | hc
                          · rfl
                          · rfl
                          · rfl
                          · rw [deleteDispatch_fst] at hc
                            exact fullDeleteTrace_region p clientRegion vpc c
                              (ddr_mem_full p clientRegion vpc c hc)

/-! ### The claims -/

/-- C1: the claim says the describe and delete calls performed while
handling a region `r` are issued against `r` itself.  In the code the `ec2`
client is created once (line 45) before the loop sets `AWS_DEFAULT_REGION`
(line 136), so every call targets the client's creation-time region
instead: handling region `eu-west-1` with a client created in `us-east-1`
issues exactly the calls that handling `us-east-1` would, all tagged
`us-east-1` — including the delete of the default VPC the client's region
reports — and no call tagged `eu-west-1` at all. -/
theorem C1_calls_target_client_region :
    processRegion sampleProvider "us-east-1" true [] "eu-west-1" =
      processRegion sampleProvider "us-east-1" true [] "us-east-1" ∧
    ApiCall.deleteVpc "us-east-1" "vpc-1" ∈
      (processRegion sampleProvider "us-east-1" true [] "eu-west-1").trace ∧
    (processRegion sampleProvider "us-east-1" true [] "eu-west-1").trace.all
      (fun c => callRegion c == some "us-east-1") = true :=
  ⟨rfl, by decide, by decide⟩

/-- C2: within a region's deletion, calls are emitted in the fixed block
order (phases: gateway work `0`, subnets `1`, route tables `2`, network
ACLs `3`, security groups `4`, the VPC delete `5`); each gateway's detach
precedes its delete; and the VPC delete, when issued, is the very last call
issued, hence after every dependent-resource delete of that region. -/
theorem C2_deletion_order (p : Ec2Provider) (region vpc : String) :
    (delete_dependent_resources p region vpc).1.Pairwise
        (fun a b => callPhase a ≤ callPhase b) ∧
    (ApiCall.deleteVpc region vpc ∈ (delete_dependent_resources p region vpc).1 →
      (delete_dependent_resources p region vpc).1.getLast? =
        some (ApiCall.deleteVpc region vpc)) ∧
    (∀ i, ApiCall.deleteInternetGateway region i ∈
        (delete_dependent_resources p region vpc).1 →
      ∃ l1 l2, (delete_dependent_resources p region vpc).1 =
          l1 ++ ApiCall.detachInternetGateway region i vpc :: l2 ∧
        ApiCall.deleteInternetGateway region i ∈ l2) :=
  ⟨ddr_pairwise p region vpc, ddr_vpc_last p region vpc,
    fun i => ddr_detach_before_delete p region vpc i⟩

theorem C2_deletion_order_witness :
    (delete_dependent_resources sampleProvider "us-east-1" "vpc-1").1.Pairwise
        (fun a b => callPhase a ≤ callPhase b) ∧
    (delete_dependent_resources sampleProvider "us-east-1" "vpc-1").1.getLast? =
      some (ApiCall.deleteVpc "us-east-1" "vpc-1") :=
  ⟨(C2_deletion_order sampleProvider "us-east-1" "vpc-1").1,
    (C2_deletion_order sampleProvider "us-east-1" "vpc-1").2.1 (by decide)⟩

/-- C3: a region whose default-VPC query returns an empty list issues only
the describe call — no delete call of any kind — and the loop continues
with the next regions, the input stream untouched. -/
theorem C3_empty_vpcs_no_deletes (p : Ec2Provider) (clientRegion : String)
    (noConfirm : Bool) (inputs : List String) (r : String) (rest : List String)
    (h : p.vpcsResp clientRegion = Except.ok []) :
    (processRegion p clientRegion noConfirm inputs r).trace =
        [ApiCall.describeVpcs clientRegion] ∧
    (∀ c ∈ (processRegion p clientRegion noConfirm inputs r).trace,
      isMutation c = false) ∧
    runRegions p clientRegion noConfirm inputs (r :: rest) =
      (r, [ApiCall.describeVpcs clientRegion]) ::
        runRegions p clientRegion noConfirm inputs rest := by
  have h1 : processRegion p clientRegion noConfirm inputs r =
      ⟨[ApiCall.describeVpcs clientRegion], inputs, false⟩ := by
    simp [processRegion, h]
  refine ⟨by rw [h1], ?_, ?_⟩
  · rw [h1]
    intro c hc
    simp only [List.mem_singleton] at hc
    subst hc
    rfl
  · simp [runRegions, h1]

theorem C3_empty_vpcs_no_deletes_witness :
    (processRegion emptyProvider "us-east-1" true [] "us-east-1").trace =
      [ApiCall.describeVpcs "us-east-1"] :=
  (C3_empty_vpcs_no_deletes emptyProvider "us-east-1" true [] "us-east-1" [] rfl).1

/-- C4: whatever the provider's responses and failures — including any
provider call failing in any region — every region of the list is
processed, in order (here under inputs that answer each prompt, so the only
non-provider way to stop, an exhausted stdin, is ruled out). -/
theorem C4_region_failures_isolated (p : Ec2Provider) (clientRegion : String)
    (noConfirm : Bool) (inputs regions : List String)
    (h1 : ∀ s ∈ inputs, strLower s = "y" ∨ strLower s = "n")
    (h2 : regions.length ≤ inputs.length) :
    (runRegions p clientRegion noConfirm inputs regions).map Prod.fst = regions :=
  runRegions_yn p clientRegion noConfirm regions inputs h1 h2

theorem C4_region_failures_isolated_witness :
    (runRegions failProvider "us-east-1" false ["y", "y"]
        ["us-east-1", "eu-west-1"]).map Prod.fst = ["us-east-1", "eu-west-1"] :=
  C4_region_failures_isolated failProvider "us-east-1" false ["y", "y"]
    ["us-east-1", "eu-west-1"] (by decide) (by decide)

/-- C5: if any provider call issued during a region's deletion fails — a
detach/delete/disassociate mutation, or any of the five describe calls made
inside `delete_dependent_resources` (lines 67, 77, 86, 99, 109) — then
`delete_dependent_resources` raises; the failing call is the last call
issued for the region, it is issued exactly once (no retry), and the
dispatch catches the exception — logging it — without issuing any further
call (no rollback, no `delete_resources` evaluation). -/
theorem C5_failure_stops_region_deletes (p : Ec2Provider) (region vpc : String)
    (c : ApiCall)
    (hfail : (isMutation c = true ∧ p.mutationFails c = true) ∨
      (isMutation c = false ∧ descFails p c = true))
    (hmem : c ∈ (delete_dependent_resources p region vpc).1) :
    (delete_dependent_resources p region vpc).2 = true ∧
    (delete_dependent_resources p region vpc).1.getLast? = some c ∧
    (delete_dependent_resources p region vpc).1.count c = 1 ∧
    ∀ igw subnets, deleteDispatch p region vpc igw subnets =
      ((delete_dependent_resources p region vpc).1, true) := by
  have key : (delete_dependent_resources p region vpc).1.getLast? = some c ∧
      (delete_dependent_resources p region vpc).1.count c = 1 ∧
      (delete_dependent_resources p region vpc).2 = true := by
    rcases hfail with ⟨hmut, hf⟩ | ⟨hnm, hdesc⟩
    · exact runSteps_fail_last p c hmut hf (ddrSteps p region vpc)
        (ddrSteps_descOk p region vpc) hmem
    · exact ddr_desc_fail_last p region vpc c hnm hdesc hmem
  obtain ⟨hl, hcnt, hsnd⟩ := key
  refine ⟨hsnd, hl, hcnt, ?_⟩
  intro igw subnets
  simp [deleteDispatch, hsnd, delete_resources]

theorem C5_failure_stops_region_deletes_witness :
    (delete_dependent_resources failProvider "us-east-1" "vpc-1").2 = true ∧
    (delete_dependent_resources failProvider "us-east-1" "vpc-1").1.getLast? =
      some (ApiCall.deleteSubnet "us-east-1" "subnet-1") ∧
    (delete_dependent_resources descFailProvider "us-east-1" "vpc-1").2 = true ∧
    (delete_dependent_resources descFailProvider "us-east-1" "vpc-1").1.getLast? =
      some (ApiCall.describeRouteTables "us-east-1" "vpc-1") :=
  ⟨(C5_failure_stops_region_deletes failProvider "us-east-1" "vpc-1"
      (ApiCall.deleteSubnet "us-east-1" "subnet-1")
      (Or.inl ⟨by decide, by decide⟩) (by decide)).1,
    (C5_failure_stops_region_deletes failProvider "us-east-1" "vpc-1"
      (ApiCall.deleteSubnet "us-east-1" "subnet-1")
      (Or.inl ⟨by decide, by decide⟩) (by decide)).2.1,
    (C5_failure_stops_region_deletes descFailProvider "us-east-1" "vpc-1"
      (ApiCall.describeRouteTables "us-east-1" "vpc-1")
      (Or.inr ⟨by decide, by decide⟩) (by decide)).1,
    (C5_failure_stops_region_deletes descFailProvider "us-east-1" "vpc-1"
      (ApiCall.describeRouteTables "us-east-1" "vpc-1")
      (Or.inr ⟨by decide, by decide⟩) (by decide)).2.1⟩

/-- C6: with the `--no-confirm` flag, `confirm_delete` returns `True` at
once without reaching the prompt, and region handling consumes no input
line and is never blocked on the prompt. -/
theorem C6_no_confirm_skips_prompt (resources inputs : List String) :
    confirm_delete resources true inputs = ⟨some true, inputs, false⟩ ∧
    ∀ (p : Ec2Provider) (clientRegion r : String),
      (processRegion p clientRegion true inputs r).rest = inputs ∧
      (processRegion p clientRegion true inputs r).blocked = false :=
  ⟨rfl, fun p clientRegion r => processRegion_noConfirm p clientRegion inputs r⟩

theorem C6_no_confirm_skips_prompt_witness :
    confirm_delete [] true ["n"] = ⟨some true, ["n"], false⟩ :=
  (C6_no_confirm_skips_prompt [] ["n"]).1

/-- C7: ACL and security-group deletes are issued exactly for the
non-default entries: any issued ACL delete targets a response ACL whose
`IsDefault` is false and any issued security-group delete targets a
response group whose name is not `default` (so default entries are never
targeted); and in a failure-free run every such entry gets its delete
call. -/
theorem C7_acl_sg_selection (p : Ec2Provider) (region vpc : String) :
    (∀ aid, ApiCall.deleteNetworkAcl region aid ∈
        (delete_dependent_resources p region vpc).1 →
      ∃ acls, p.networkAclsResp region vpc = Except.ok acls ∧
        ∃ a ∈ acls, a.isDefault = false ∧ a.networkAclId = aid) ∧
    (∀ gid, ApiCall.deleteSecurityGroup region gid ∈
        (delete_dependent_resources p region vpc).1 →
      ∃ sgs, p.securityGroupsResp region vpc = Except.ok sgs ∧
        ∃ s ∈ sgs, s.groupName ≠ "default" ∧ s.groupId = gid) ∧
    (∀ igws subs rts acls sgs, (∀ c, p.mutationFails c = false) →
      p.igwsDelResp region vpc = Except.ok igws →
      p.subnetsDelResp region vpc = Except.ok subs →
      p.routeTablesResp region vpc = Except.ok rts →
      p.networkAclsResp region vpc = Except.ok acls →
      p.securityGroupsResp region vpc = Except.ok sgs →
      (∀ a ∈ acls, a.isDefault = false →
        ApiCall.deleteNetworkAcl region a.networkAclId ∈
          (delete_dependent_resources p region vpc).1) ∧
      (∀ s ∈ sgs, s.groupName ≠ "default" →
        ApiCall.deleteSecurityGroup region s.groupId ∈
          (delete_dependent_resources p region vpc).1)) := by
  refine ⟨fun aid h => ddr_acl_sound p region vpc aid h,
    fun gid h => ddr_sg_sound p region vpc gid h, ?_⟩
  intro igws subs rts acls sgs hnf h1 h2 h3 h4 h5
  have hfst := ddr_nofail_fst p region vpc hnf h1 h2 h3 h4 h5
  constructor
  · intro a ha hdef
    rw [hfst]
    exact full_acl_mem p region vpc h4 ha hdef
  · intro s hs hname
    rw [hfst]
    exact full_sg_mem p region vpc h5 hs hname

theorem C7_acl_sg_selection_witness :
    ∃ acls, sampleProvider.networkAclsResp "us-east-1" "vpc-1" = Except.ok acls ∧
      ∃ a ∈ acls, a.isDefault = false ∧ a.networkAclId = "acl-2" :=
  (C7_acl_sg_selection sampleProvider "us-east-1" "vpc-1").1 "acl-2" (by decide)

/-- C8: with `--regions` the processed regions are exactly the ones given,
in the given order; without it, exactly the ones the provider's
`describe_regions` returned (which is called in both cases, before the
flag is consulted, and whose failure kills the program). -/
theorem C8_region_list_selection (p : Ec2Provider) (described rs inputs : List String)
    (clientRegion : String) (hreg : p.regionsResp = Except.ok described)
    (hne : rs ≠ []) :
    (runMain p (some rs) true inputs clientRegion).map (List.map Prod.fst) =
        Except.ok rs ∧
    (runMain p none true inputs clientRegion).map (List.map Prod.fst) =
        Except.ok described := by
  constructor
  · cases rs with
    | nil => exact absurd rfl hne
    | cons a l =>
        simp [runMain, hreg, computeRegions, Except.map, runRegions_noConfirm]
  · simp [runMain, hreg, computeRegions, Except.map, runRegions_noConfirm]

theorem C8_region_list_selection_witness :
    (runMain sampleProvider (some ["eu-west-1"]) true [] "us-east-1").map
        (List.map Prod.fst) = Except.ok ["eu-west-1"] :=
  (C8_region_list_selection sampleProvider ["us-east-1", "eu-west-1"] ["eu-west-1"] []
    "us-east-1" rfl (by simp)).1

/-- C9: when `delete_dependent_resources` completes without a provider
error, the following call to the undefined name `delete_resources` raises
without issuing any provider call, the dispatch catches and logs it, and no
further call is issued for the region — while the VPC delete has already
been issued, as the last call of `delete_dependent_resources`. -/
theorem C9_delete_resources_undefined (p : Ec2Provider) (region vpc : String)
    (igw : Option String) (subnets : List Subnet)
    (h : (delete_dependent_resources p region vpc).2 = false) :
    delete_resources vpc igw subnets = ([], true) ∧
    deleteDispatch p region vpc igw subnets =
      ((delete_dependent_resources p region vpc).1, true) ∧
    (delete_dependent_resources p region vpc).1.getLast? =
      some (ApiCall.deleteVpc region vpc) := by
  refine ⟨rfl, ?_, ?_⟩
  · simp [deleteDispatch, h, delete_resources]
  · show ((runSteps p (ddrSteps p region vpc)).1).getLast? = _
    rw [runSteps_complete p (ddrSteps p region vpc) h]
    exact fullDeleteTrace_getLast p region vpc

theorem C9_delete_resources_undefined_witness :
    deleteDispatch sampleProvider "us-east-1" "vpc-1" (some "igw-1") [⟨"subnet-1"⟩] =
      ((delete_dependent_resources sampleProvider "us-east-1" "vpc-1").1, true) :=
  (C9_delete_resources_undefined sampleProvider "us-east-1" "vpc-1" (some "igw-1")
    [⟨"subnet-1"⟩] (by decide)).2.1

/-- C10: any route-table disassociation issued targets a non-main
association of a response table, and any route-table delete issued targets
a response table none of whose associations is the main one — so the VPC's
main route table is never the target of a route-table delete. -/
theorem C10_route_table_selection (p : Ec2Provider) (region vpc : String) :
    (∀ aid, ApiCall.disassociateRouteTable region aid ∈
        (delete_dependent_resources p region vpc).1 →
      ∃ rts, p.routeTablesResp region vpc = Except.ok rts ∧
        ∃ rt ∈ rts, ∃ a ∈ rt.associations, a.main = false ∧
          a.routeTableAssociationId = aid) ∧
    (∀ rid, ApiCall.deleteRouteTable region rid ∈
        (delete_dependent_resources p region vpc).1 →
      ∃ rts, p.routeTablesResp region vpc = Except.ok rts ∧
        ∃ rt ∈ rts, rt.routeTableId = rid ∧ ∀ a ∈ rt.associations, a.main = false) :=
  ⟨fun aid h => ddr_rt_disassoc_sound p region vpc aid h,
    fun rid h => ddr_rt_delete_sound p region vpc rid h⟩

theorem C10_route_table_selection_witness :
    ∃ rts, sampleProvider.routeTablesResp "us-east-1" "vpc-1" = Except.ok rts ∧
      ∃ rt ∈ rts, rt.routeTableId = "rtb-2" ∧ ∀ a ∈ rt.associations, a.main = false :=
  (C10_route_table_selection sampleProvider "us-east-1" "vpc-1").2 "rtb-2" (by decide)

end DeleteDefaultVpc
